import Mathlib

/-!
Auction resolution (`pkg/resolver.go`, `pkg/bidder.go`)

A shallow embedding of the proxy-bidding auction resolver.

* `int64` amounts are integers; every addition the program performs is wrapped
  into the signed 64-bit range by `wrapInt64`.
* `time.Time` values are represented by their instant on a linear time line
  (an integer); `Before` and `After` are `<` and `>`.
* Go maps are finite partial functions, represented as `key → Option value`;
  reading a missing key yields the zero value.
* The `for eligibleBidders == true` loop is driven by a fuel counter: one unit
  per evaluation of the loop condition.  `none` means the fuel ran out before
  the loop condition became false.
-/

namespace Auctioneer

/-! ## Data model -/

/-- The least `int64` is `-2^63`; the type holds `2^64` values. -/
def int64Half : Int := 9223372036854775808

/-- Number of values of the `int64` type. -/
def int64Size : Int := 18446744073709551616

/-- Two's-complement wrap-around of a mathematical integer into `int64`. -/
def wrapInt64 (x : Int) : Int := (x + int64Half) % int64Size - int64Half

/-- Membership in the `int64` range. -/
def InInt64 (x : Int) : Prop := -int64Half ≤ x ∧ x < int64Half

instance (x : Int) : Decidable (InInt64 x) := by
  unfold InInt64; infer_instance

/-- Go `type Bid struct`. -/
structure Bid where
  CreatedAt : Int
  AmountCents : Int
deriving DecidableEq, Repr

/-- Go `type BidStrategy struct`. -/
structure BidStrategy where
  MaxBidCents : Int
  BidIncrementCents : Int
deriving DecidableEq, Repr

/-- Go `type Bidder struct`. -/
structure Bidder where
  GUID : String
  BidStrategy : BidStrategy
  InitialBid : Bid
deriving DecidableEq, Repr

/-- Go `type Auction struct`. -/
structure Auction where
  id : String
  minPriceCents : Int
deriving DecidableEq, Repr

/-- The errors created with `errors.New` in the two source files. -/
inductive AuctionError where
  | noBidders
  | allBiddersTooCheap
  | initialBidsNotSorted
  | maxBidsNotSorted
  | missingHighestBid
deriving DecidableEq, Repr

/-! ## Go maps -/

/-- The map `map[string]int64` from GUID to current bid. -/
abbrev BidsMap := String → Option Int

/-- The map `map[int64]string` from a maximum bid to a GUID. -/
abbrev MaxBidsMap := Int → Option String

/-- The empty map literal `map[K]V{}`. -/
def emptyMap {κ ν : Type} : κ → Option ν := fun _ => none

/-- The assignment `m[k] = v`. -/
def setKey {κ ν : Type} [DecidableEq κ] (m : κ → Option ν) (k : κ) (v : ν) : κ → Option ν :=
  fun k' => if k' = k then some v else m k'

/-- The read `bids[g]`: a missing key reads as `0`. -/
def bidOf (bids : BidsMap) (g : String) : Int := (bids g).getD 0

/-! ## `bidder.go` -/

/-- Go `compareBiddersByBidTime`. -/
def compareBiddersByBidTime (a b : Bidder) : Int :=
  if a.InitialBid.CreatedAt < b.InitialBid.CreatedAt then -1
  else if a.InitialBid.CreatedAt > b.InitialBid.CreatedAt then 1
  else 0

/-- Insertion of one bidder into a list ordered by bid time: it goes after the
bidders that compare strictly smaller and before everything else. -/
def insertByBidTime (a : Bidder) : List Bidder → List Bidder
  | [] => [a]
  | b :: l =>
    if compareBiddersByBidTime b a < 0 then b :: insertByBidTime a l else a :: b :: l

/-- Go `sortBiddersByEarliest`: `slices.SortStableFunc` with
`compareBiddersByBidTime`, as a stable insertion sort. -/
def sortBiddersByEarliest : List Bidder → List Bidder
  | [] => []
  | b :: l => insertByBidTime b (sortBiddersByEarliest l)

/-- Go `slices.DeleteFunc`: the elements for which `del` is false, in order. -/
def deleteFunc (l : List Bidder) (del : Bidder → Bool) : List Bidder :=
  l.filter (fun b => !del b)

/-- Go `removeBiddersUnderMin`. -/
def removeBiddersUnderMin (bidders : List Bidder) (minAmountCents : Int) : List Bidder :=
  deleteFunc bidders (fun bidder => decide (bidder.BidStrategy.MaxBidCents < minAmountCents))

/-- Go `slices.IsSortedFunc` with `compareBiddersByBidTime`: no element compares
strictly smaller than its predecessor. -/
def isSortedByBidTime : List Bidder → Bool
  | [] => true
  | [_] => true
  | a :: b :: l => !decide (compareBiddersByBidTime b a < 0) && isSortedByBidTime (b :: l)

/-- The `for _, bidder := range bidders` loop of `getInitialBids`, carrying
`initialBids`, `highestBid` and `highestBidder`. -/
def getInitialBidsLoop : List Bidder → BidsMap → Int → String → BidsMap × String
  | [], initialBids, _, highestBidder => (initialBids, highestBidder)
  | bidder :: rest, initialBids, highestBid, highestBidder =>
    let initialBids' := setKey initialBids bidder.GUID bidder.InitialBid.AmountCents
    if highestBid < bidder.InitialBid.AmountCents then
      getInitialBidsLoop rest initialBids' bidder.InitialBid.AmountCents bidder.GUID
    else
      getInitialBidsLoop rest initialBids' highestBid highestBidder

/-- Go `getInitialBids`. -/
def getInitialBids (bidders : List Bidder) : BidsMap × String × Option AuctionError :=
  if !isSortedByBidTime bidders then
    (emptyMap, "", some AuctionError.initialBidsNotSorted)
  else
    let r := getInitialBidsLoop bidders emptyMap 0 ""
    (r.1, r.2, none)

/-- The `for _, bidder := range bidders` loop of `getEarliestBidderAtMaxValue`. -/
def getEarliestBidderAtMaxValueLoop : List Bidder → MaxBidsMap → MaxBidsMap
  | [], maxBids => maxBids
  | bidder :: rest, maxBids =>
    match maxBids bidder.BidStrategy.MaxBidCents with
    | some _ => getEarliestBidderAtMaxValueLoop rest maxBids
    | none =>
      getEarliestBidderAtMaxValueLoop rest (setKey maxBids bidder.BidStrategy.MaxBidCents bidder.GUID)

/-- Go `getEarliestBidderAtMaxValue`. -/
def getEarliestBidderAtMaxValue (bidders : List Bidder) : MaxBidsMap × Option AuctionError :=
  if !isSortedByBidTime bidders then
    (emptyMap, some AuctionError.maxBidsNotSorted)
  else
    (getEarliestBidderAtMaxValueLoop bidders emptyMap, none)

/-! ## `resolver.go` -/

/-- The local variables of `ResolveAuction` that the simulation loop changes. -/
structure SimState where
  bidders : List Bidder
  bids : BidsMap
  highestBidder : String
  eligibleBidders : Bool

/-- The triple `(string, int64, error)` returned by `ResolveAuction`. -/
structure ResolveResult where
  winner : String
  amount : Int
  err : Option AuctionError
deriving DecidableEq, Repr

/-- Body of the `for _, bidder := range bidders` loop of the simulation, for one
`bidder`; `st.bidders` is the slice being ranged over. -/
def passBody (auction : Auction) (st : SimState) (bidder : Bidder) :
    Except AuctionError SimState :=
  match st.bidders with
  | [only] =>
    -- `len(bidders) == 1`, and `bidders[0]` is `only`
    if bidOf st.bids st.highestBidder < auction.minPriceCents then
      let raised := wrapInt64 (bidOf st.bids st.highestBidder + only.BidStrategy.BidIncrementCents)
      .ok { st with bids := setKey st.bids st.highestBidder raised }
    else
      .ok { st with eligibleBidders := false }
  | _ =>
    if st.highestBidder = bidder.GUID then .ok st
    else
      match st.bids st.highestBidder with
      | none => .error AuctionError.missingHighestBid
      | some highestBid =>
        let nextWinningBidForBidder := wrapInt64 (highestBid + bidder.BidStrategy.BidIncrementCents)
        if nextWinningBidForBidder > highestBid ∧
            nextWinningBidForBidder ≤ bidder.BidStrategy.MaxBidCents then
          .ok { st with bids := setKey st.bids bidder.GUID nextWinningBidForBidder,
                        highestBidder := bidder.GUID }
        else .ok st

/-- One pass `for _, bidder := range bidders` over the remaining elements. -/
def runPass (auction : Auction) : List Bidder → SimState → Except AuctionError SimState
  | [], st => .ok st
  | bidder :: rest, st =>
    match passBody auction st bidder with
    | .error e => .error e
    | .ok st' => runPass auction rest st'

/-- The predicate handed to `slices.DeleteFunc` after a pass. -/
def eliminated (bids : BidsMap) (highestBidder : String) (bidder : Bidder) : Bool :=
  decide (bidder.BidStrategy.MaxBidCents ≤ bidOf bids highestBidder) ||
    decide (wrapInt64 (bidder.BidStrategy.BidIncrementCents + bidOf bids bidder.GUID) >
      bidder.BidStrategy.MaxBidCents)

/-- The loop `for eligibleBidders == true { ... }`. -/
def simulate (auction : Auction) : Nat → SimState → Option (Except AuctionError SimState)
  | 0, _ => none
  | fuel + 1, st =>
    if st.eligibleBidders = false then some (.ok st)
    else if st.bidders.length = 0 then
      simulate auction fuel { st with eligibleBidders := false }
    else
      match runPass auction st.bidders st with
      | .error e => some (.error e)
      | .ok st' =>
        simulate auction fuel
          { st' with bidders := deleteFunc st'.bidders (eliminated st'.bids st'.highestBidder) }

/-- The tie-break lookup and the two final `return` statements. -/
def finalResult (maxBidWinners : MaxBidsMap) (st : SimState) : ResolveResult :=
  match maxBidWinners (bidOf st.bids st.highestBidder) with
  | some earliestMaxWinner => ⟨earliestMaxWinner, bidOf st.bids st.highestBidder, none⟩
  | none => ⟨st.highestBidder, bidOf st.bids st.highestBidder, none⟩

/-- Go `ResolveAuction`.  The errors of the two aggregation helpers are only
logged by the source, so they are dropped here as well. -/
def ResolveAuction (fuel : Nat) (auction : Auction) (bidders : List Bidder) :
    Option ResolveResult :=
  if bidders.length = 0 then some ⟨"", 0, some AuctionError.noBidders⟩
  else
    let pool := removeBiddersUnderMin (sortBiddersByEarliest bidders) auction.minPriceCents
    if pool.length = 0 then some ⟨"", 0, some AuctionError.allBiddersTooCheap⟩
    else
      let initial := getInitialBids pool
      let maxBidWinners := (getEarliestBidderAtMaxValue pool).1
      match simulate auction fuel ⟨pool, initial.1, initial.2.1, true⟩ with
      | none => none
      | some (.error e) => some ⟨"", 0, some e⟩
      | some (.ok st) => some (finalResult maxBidWinners st)

/-- `ResolveAuction` returns `r`: some amount of fuel lets the loop finish. -/
def Returns (auction : Auction) (bidders : List Bidder) (r : ResolveResult) : Prop :=
  ∃ fuel, ResolveAuction fuel auction bidders = some r

/-- A bidder is eligible when its maximum reaches the minimum price. -/
def Eligible (auction : Auction) (b : Bidder) : Prop :=
  auction.minPriceCents ≤ b.BidStrategy.MaxBidCents

instance (auction : Auction) (b : Bidder) : Decidable (Eligible auction b) := by
  unfold Eligible; infer_instance

/-- The order the sort establishes: `a` bid no later than `b`. -/
def NotLater (a b : Bidder) : Prop := a.InitialBid.CreatedAt ≤ b.InitialBid.CreatedAt

instance : DecidableRel NotLater := fun a b =>
  inferInstanceAs (Decidable (a.InitialBid.CreatedAt ≤ b.InitialBid.CreatedAt))

instance : IsTotal Bidder NotLater := ⟨fun _ _ => Int.le_total _ _⟩

instance : IsTrans Bidder NotLater := ⟨fun _ _ _ h₁ h₂ => Int.le_trans h₁ h₂⟩

/-- The state in which `ResolveAuction` enters the simulation loop. -/
def startState (auction : Auction) (bidders : List Bidder) : SimState :=
  let pool := removeBiddersUnderMin (sortBiddersByEarliest bidders) auction.minPriceCents
  ⟨pool, (getInitialBids pool).1, (getInitialBids pool).2.1, true⟩

/-- The `slices.DeleteFunc` call that closes one round of the simulation loop. -/
def eliminate (st : SimState) : SimState :=
  { st with bidders := deleteFunc st.bidders (eliminated st.bids st.highestBidder) }

/-- The state at the end of the `for _, bidder := range bidders` pass of one round
of the loop, when the round runs a pass and the pass does not return an error. -/
def passOf (auction : Auction) (st : SimState) : Option SimState :=
  if st.eligibleBidders = false then none
  else if st.bidders.length = 0 then none
  else
    match runPass auction st.bidders st with
    | .error _ => none
    | .ok st' => some st'

/-- The state at the end of pass number `n` (counted from 0) of the simulation
loop started in `st`, if the loop runs that many passes. -/
def stateAfterPass (auction : Auction) : Nat → SimState → Option SimState
  | 0, st => passOf auction st
  | n + 1, st =>
    match passOf auction st with
    | none => none
    | some st' => stateAfterPass auction n (eliminate st')

/-- The loop invariant behind C20, relative to the bid-amount mapping `bids0` the
loop started with: the highest bidder's amount is at least every recorded amount,
no recorded amount has dropped below its starting value, every recorded amount is
an `int64`, and every bidder left in the pool has a non-negative increment that
can be added to an amount below the minimum price without overflow. -/
def LoopInv (auction : Auction) (bids0 : BidsMap) (st : SimState) : Prop :=
  (∀ k, bidOf st.bids k ≤ bidOf st.bids st.highestBidder) ∧
  (∀ k, bidOf bids0 k ≤ bidOf st.bids k) ∧
  (∀ k, InInt64 (bidOf st.bids k)) ∧
  (∀ c ∈ st.bidders, 0 ≤ c.BidStrategy.BidIncrementCents ∧
    auction.minPriceCents + c.BidStrategy.BidIncrementCents ≤ int64Half)

/-- The state in which pass number `n` (counted from 0) of the simulation loop
started in `st` begins: the start state, or the state left by the elimination
that follows pass `n - 1`. -/
def stateBeforePass (auction : Auction) : Nat → SimState → Option SimState
  | 0, st => some st
  | n + 1, st => (stateAfterPass auction n st).map eliminate

/-- The state in pass number `n` at the moment the bidder at position `i` of the
pool takes its turn, if the loop runs that pass and reaches that turn. -/
def stateAtTurn (auction : Auction) (n i : Nat) (st₀ : SimState) : Option SimState :=
  match stateBeforePass auction n st₀ with
  | none => none
  | some st =>
    if st.eligibleBidders = true ∧ i < st.bidders.length then
      match runPass auction (st.bidders.take i) st with
      | .error _ => none
      | .ok st' => some st'
    else none

/-! ## Ordering and filtering -/

theorem compare_neg_iff (a b : Bidder) :
    compareBiddersByBidTime a b < 0 ↔ a.InitialBid.CreatedAt < b.InitialBid.CreatedAt := by
  unfold compareBiddersByBidTime
  split_ifs <;> simp_all

theorem insertByBidTime_eq (a : Bidder) (l : List Bidder) :
    insertByBidTime a l = List.orderedInsert NotLater a l := by
  induction l with
  | nil => rfl
  | cons b l ih =>
    simp only [insertByBidTime, List.orderedInsert, compare_neg_iff, NotLater, ih]
    by_cases h : b.InitialBid.CreatedAt < a.InitialBid.CreatedAt
    · rw [if_pos h, if_neg (by omega)]
    · rw [if_neg h, if_pos (by omega)]

theorem sort_eq_insertionSort (l : List Bidder) :
    sortBiddersByEarliest l = List.insertionSort NotLater l := by
  induction l with
  | nil => rfl
  | cons b l ih => simp only [sortBiddersByEarliest, List.insertionSort, insertByBidTime_eq, ih]

theorem sort_perm (l : List Bidder) : (sortBiddersByEarliest l).Perm l := by
  rw [sort_eq_insertionSort]; exact List.perm_insertionSort _ l

theorem sort_sorted (l : List Bidder) : (sortBiddersByEarliest l).Sorted NotLater := by
  rw [sort_eq_insertionSort]; exact List.sorted_insertionSort _ l

theorem mem_sort {l : List Bidder} {b : Bidder} : b ∈ sortBiddersByEarliest l ↔ b ∈ l :=
  (sort_perm l).mem_iff

theorem isSorted_of_sorted : ∀ {l : List Bidder}, l.Sorted NotLater → isSortedByBidTime l = true
  | [], _ => rfl
  | [_], _ => rfl
  | a :: b :: l, h => by
    have hab : NotLater a b := List.rel_of_sorted_cons h b (List.mem_cons_self _ _)
    have ih := isSorted_of_sorted (l := b :: l) h.of_cons
    simp only [isSortedByBidTime, compare_neg_iff, ih, Bool.and_true, Bool.not_eq_true',
      decide_eq_false_iff_not]
    unfold NotLater at hab; omega

theorem removeBiddersUnderMin_eq (l : List Bidder) (m : Int) :
    removeBiddersUnderMin l m = l.filter (fun b => decide (m ≤ b.BidStrategy.MaxBidCents)) := by
  unfold removeBiddersUnderMin deleteFunc
  congr 1; funext b
  by_cases h : b.BidStrategy.MaxBidCents < m
  · simp [h]
  · simp [h]; omega

theorem mem_removeBiddersUnderMin {l : List Bidder} {m : Int} {b : Bidder} :
    b ∈ removeBiddersUnderMin l m ↔ b ∈ l ∧ m ≤ b.BidStrategy.MaxBidCents := by
  rw [removeBiddersUnderMin_eq]; simp

/-- The working pool of `ResolveAuction`: sorted, then filtered. -/
theorem pool_isSorted (l : List Bidder) (m : Int) :
    isSortedByBidTime (removeBiddersUnderMin (sortBiddersByEarliest l) m) = true := by
  apply isSorted_of_sorted
  rw [removeBiddersUnderMin_eq]
  exact (sort_sorted l).filter _

/-- A list that is already in strictly increasing bid-time order is the sorted
form of each of its permutations. -/
theorem sorted_unique : ∀ (l s : List Bidder),
    l.Pairwise (fun a b => a.InitialBid.CreatedAt < b.InitialBid.CreatedAt) →
    s.Sorted NotLater → s.Perm l → s = l
  | [], s, _, _, hp => hp.eq_nil
  | a :: l, [], _, _, hp => by simpa using hp.length_eq
  | a :: l, x :: s, hl, hs, hp => by
    have hxa : x = a := by
      have hx : x ∈ a :: l := hp.subset (List.mem_cons_self _ _)
      have ha : a ∈ x :: s := hp.symm.subset (List.mem_cons_self _ _)
      rcases List.mem_cons.1 hx with h | h
      · exact h
      · have h1 := List.rel_of_pairwise_cons hl h
        rcases List.mem_cons.1 ha with h2 | h2
        · exact h2.symm
        · have h3 : NotLater x a := List.rel_of_sorted_cons hs a h2
          unfold NotLater at h3; omega
    subst hxa
    rw [sorted_unique l s (List.Pairwise.of_cons hl) hs.of_cons ((List.perm_cons x).1 hp)]

theorem sort_eq_of_perm {l bs : List Bidder}
    (hl : l.Pairwise (fun a b => a.InitialBid.CreatedAt < b.InitialBid.CreatedAt))
    (hp : bs.Perm l) : sortBiddersByEarliest bs = l :=
  sorted_unique l _ hl (sort_sorted bs) ((sort_perm bs).trans hp)

/-! ## The simulation loop -/

theorem wrapInt64_eq {x : Int} (h : InInt64 x) : wrapInt64 x = x := by
  unfold InInt64 int64Half at h
  unfold wrapInt64 int64Half int64Size
  omega

theorem simulate_settled (auction : Auction) (n : Nat) (st : SimState)
    (h : st.eligibleBidders = false) : simulate auction (n + 1) st = some (.ok st) := by
  simp [simulate, h]

theorem simulate_empty (auction : Auction) (n : Nat) (st : SimState)
    (h : st.eligibleBidders = true) (hp : st.bidders = []) :
    simulate auction (n + 2) st = some (.ok { st with eligibleBidders := false }) := by
  simp [simulate, h, hp]

theorem simulate_step (auction : Auction) (n : Nat) (st st' : SimState)
    (h : st.eligibleBidders = true) (hp : st.bidders ≠ [])
    (hpass : runPass auction st.bidders st = .ok st') :
    simulate auction (n + 1) st = simulate auction n
      { st' with bidders := deleteFunc st'.bidders (eliminated st'.bids st'.highestBidder) } := by
  have hl : st.bidders.length ≠ 0 := by simpa using hp
  simp [simulate, h, hl, hpass]

theorem simulate_succ (auction : Auction) : ∀ (n : Nat) (st : SimState) r,
    simulate auction n st = some r → simulate auction (n + 1) st = some r
  | 0, _, _, h => by simp [simulate] at h
  | n + 1, st, r, h => by
    rw [simulate] at h ⊢
    split_ifs at h ⊢ with h1 h2
    · exact h
    · exact simulate_succ auction n _ r h
    · cases hrun : runPass auction st.bidders st with
      | error e => rw [hrun] at h; exact h
      | ok st' => rw [hrun] at h; exact simulate_succ auction n _ r h

theorem simulate_mono (auction : Auction) {n m : Nat} (hnm : n ≤ m) (st : SimState) r
    (h : simulate auction n st = some r) : simulate auction m st = some r := by
  induction hnm with
  | refl => exact h
  | step _ ih => exact simulate_succ auction _ st r ih

theorem passBody_error (auction : Auction) (st : SimState) (b : Bidder) (e : AuctionError)
    (h : passBody auction st b = .error e) : e = AuctionError.missingHighestBid := by
  unfold passBody at h
  split at h
  · split_ifs at h
  · split_ifs at h
    split at h
    · cases h; rfl
    · simp only at h; split_ifs at h

theorem runPass_error (auction : Auction) : ∀ (l : List Bidder) (st : SimState) (e : AuctionError),
    runPass auction l st = .error e → e = AuctionError.missingHighestBid
  | [], _, _, h => by simp [runPass] at h
  | b :: l, st, e, h => by
    rw [runPass] at h
    split at h
    · next e' he => cases h; exact passBody_error auction st b _ he
    · exact runPass_error auction l _ e h

theorem simulate_error (auction : Auction) : ∀ (n : Nat) (st : SimState) (e : AuctionError),
    simulate auction n st = some (.error e) → e = AuctionError.missingHighestBid
  | 0, _, _, h => by simp [simulate] at h
  | n + 1, st, e, h => by
    rw [simulate] at h
    split_ifs at h with h1 h2
    · cases h
    · exact simulate_error auction n _ e h
    · cases hrun : runPass auction st.bidders st with
      | error e' =>
        rw [hrun] at h
        simp only [Option.some.injEq, Except.error.injEq] at h
        subst h; exact runPass_error auction _ st _ hrun
      | ok st' => rw [hrun] at h; exact simulate_error auction n _ e h

theorem ResolveAuction_nil (fuel : Nat) (auction : Auction) :
    ResolveAuction fuel auction [] = some ⟨"", 0, some AuctionError.noBidders⟩ := by
  simp [ResolveAuction]

theorem ResolveAuction_cheap (fuel : Nat) (auction : Auction) (bidders : List Bidder)
    (hne : bidders ≠ [])
    (hp : removeBiddersUnderMin (sortBiddersByEarliest bidders) auction.minPriceCents = []) :
    ResolveAuction fuel auction bidders = some ⟨"", 0, some AuctionError.allBiddersTooCheap⟩ := by
  simp [ResolveAuction, hne, hp]

theorem ResolveAuction_run (fuel : Nat) (auction : Auction) (bidders : List Bidder)
    (hne : bidders ≠ [])
    (hp : removeBiddersUnderMin (sortBiddersByEarliest bidders) auction.minPriceCents ≠ []) :
    ResolveAuction fuel auction bidders =
      match simulate auction fuel (startState auction bidders) with
      | none => none
      | some (.error e) => some ⟨"", 0, some e⟩
      | some (.ok st) => some (finalResult (getEarliestBidderAtMaxValue
          (removeBiddersUnderMin (sortBiddersByEarliest bidders) auction.minPriceCents)).1 st) := by
  simp [ResolveAuction, hne, hp, startState]

theorem ResolveAuction_mono {auction : Auction} {bidders : List Bidder} {n m : Nat}
    (hnm : n ≤ m) {r : ResolveResult} (h : ResolveAuction n auction bidders = some r) :
    ResolveAuction m auction bidders = some r := by
  by_cases hne : bidders = []
  · subst hne; rw [ResolveAuction_nil] at h ⊢; exact h
  by_cases hp : removeBiddersUnderMin (sortBiddersByEarliest bidders) auction.minPriceCents = []
  · rw [ResolveAuction_cheap _ _ _ hne hp] at h ⊢; exact h
  rw [ResolveAuction_run _ _ _ hne hp] at h ⊢
  cases hs : simulate auction n (startState auction bidders) with
  | none => rw [hs] at h; cases h
  | some x => rw [hs] at h; rw [simulate_mono auction hnm _ _ hs]; exact h

theorem Returns_unique {auction : Auction} {bidders : List Bidder} {r r' : ResolveResult}
    (h : Returns auction bidders r) (h' : Returns auction bidders r') : r = r' := by
  obtain ⟨n, hn⟩ := h
  obtain ⟨m, hm⟩ := h'
  have h1 := ResolveAuction_mono (Nat.le_max_left n m) hn
  have h2 := ResolveAuction_mono (Nat.le_max_right n m) hm
  rw [h1] at h2; exact Option.some.inj h2

/-! ## Claims about the result of `ResolveAuction` -/

/-- C1 (fails on the code): a lone bidder below the minimum price is raised by whole
increments without any check against its maximum.  With minimum 1800, one bidder
with maximum 2000, increment 1500 and initial bid 1000 wins at 2500, above its
own maximum, although its GUID is unique, its increment positive and its initial
bid below its maximum. -/
theorem C1_lone_bidder_exceeds_max :
    ResolveAuction 3 { id := "testAuction", minPriceCents := 1800 }
        [{ GUID := "Low", BidStrategy := { MaxBidCents := 2000, BidIncrementCents := 1500 },
           InitialBid := { CreatedAt := 1, AmountCents := 1000 } }]
      = some { winner := "Low", amount := 2500, err := none } ∧
    (2000 : Int) < 2500 ∧ (1000 : Int) ≤ 2000 := by
  decide

/-- One round of the loop leaves the state of the C2 input as it was. -/
theorem stuck_state_loops (auction : Auction) (st : SimState)
    (h : st.eligibleBidders = true) (hp : st.bidders ≠ [])
    (hpass : runPass auction st.bidders st = .ok st)
    (hdel : deleteFunc st.bidders (eliminated st.bids st.highestBidder) = st.bidders) :
    ∀ fuel, simulate auction fuel st = none
  | 0 => rfl
  | fuel + 1 => by
    rw [simulate_step auction fuel st st h hp hpass, hdel]
    exact stuck_state_loops auction st h hp hpass hdel fuel

/-- C2 (fails on the code): with minimum 100, bidder A (maximum 5000, increment
100, initial bid 1000) and bidder B (maximum 1500, increment 600, initial bid
100), B can never outbid A (1000 + 600 > 1500) and is never removed
(1500 > 1000 and 100 + 600 ≤ 1500): every pass leaves the state unchanged, so no
amount of fuel lets `ResolveAuction` return. -/
theorem C2_simulation_does_not_terminate :
    ∀ fuel, ResolveAuction fuel { id := "testAuction", minPriceCents := 100 }
        [{ GUID := "A", BidStrategy := { MaxBidCents := 5000, BidIncrementCents := 100 },
           InitialBid := { CreatedAt := 1, AmountCents := 1000 } },
         { GUID := "B", BidStrategy := { MaxBidCents := 1500, BidIncrementCents := 600 },
           InitialBid := { CreatedAt := 2, AmountCents := 100 } }] = none := by
  intro fuel
  rw [ResolveAuction_run _ _ _ (by decide) (by decide),
    stuck_state_loops _ _ (by rfl) (by decide) (by rfl) (by rfl) fuel]

/-- C3 (fails on the code): with minimum 1800, one bidder with maximum 2000,
increment 600 and initial bid 1000 is raised once to 1600, is then removed from
the pool because 1600 + 600 > 2000, and is returned as the winner at 1600, below
the minimum price. -/
theorem C3_winner_below_min_price :
    ResolveAuction 3 { id := "testAuction", minPriceCents := 1800 }
        [{ GUID := "A", BidStrategy := { MaxBidCents := 2000, BidIncrementCents := 600 },
           InitialBid := { CreatedAt := 1, AmountCents := 1000 } }]
      = some { winner := "A", amount := 1600, err := none } ∧
    (1600 : Int) < 1800 := by
  decide

theorem earliestLoop_spec : ∀ (l : List Bidder) (m : MaxBidsMap) (v : Int),
    getEarliestBidderAtMaxValueLoop l m v =
      match m v with
      | some g => some g
      | none => (l.find? (fun b => decide (b.BidStrategy.MaxBidCents = v))).map (·.GUID)
  | [], m, v => by
    cases h : m v <;> simp [getEarliestBidderAtMaxValueLoop, h]
  | b :: l, m, v => by
    rw [getEarliestBidderAtMaxValueLoop]
    cases hb : m b.BidStrategy.MaxBidCents with
    | some g =>
      simp only [earliestLoop_spec l m v]
      cases hv : m v with
      | some g' => rfl
      | none =>
        have hne : b.BidStrategy.MaxBidCents ≠ v := by
          intro h; rw [h, hv] at hb; cases hb
        simp [List.find?, hne]
    | none =>
      simp only [earliestLoop_spec l _ v, setKey]
      by_cases hbv : v = b.BidStrategy.MaxBidCents
      · subst hbv; simp [hb, List.find?]
      · have hne : b.BidStrategy.MaxBidCents ≠ v := fun h => hbv h.symm
        simp [hbv, List.find?, hne]

/-- On the working pool the tie-break table maps `v` to the first bidder, in pool
order, whose maximum is `v`. -/
theorem maxBidWinners_pool (auction : Auction) (bidders : List Bidder) (v : Int) :
    (getEarliestBidderAtMaxValue
        (removeBiddersUnderMin (sortBiddersByEarliest bidders) auction.minPriceCents)).1 v =
      ((removeBiddersUnderMin (sortBiddersByEarliest bidders) auction.minPriceCents).find?
        (fun b => decide (b.BidStrategy.MaxBidCents = v))).map (·.GUID) := by
  simp [getEarliestBidderAtMaxValue, pool_isSorted, earliestLoop_spec, emptyMap]

/-- Every successful return goes through the tie-break lookup. -/
theorem ResolveAuction_ok {fuel : Nat} {auction : Auction} {bidders : List Bidder}
    {r : ResolveResult} (h : ResolveAuction fuel auction bidders = some r) (herr : r.err = none) :
    ∃ st, simulate auction fuel (startState auction bidders) = some (.ok st) ∧
      r = finalResult (getEarliestBidderAtMaxValue
        (removeBiddersUnderMin (sortBiddersByEarliest bidders) auction.minPriceCents)).1 st := by
  by_cases hne : bidders = []
  · subst hne; rw [ResolveAuction_nil] at h; cases h; cases herr
  by_cases hp : removeBiddersUnderMin (sortBiddersByEarliest bidders) auction.minPriceCents = []
  · rw [ResolveAuction_cheap _ _ _ hne hp] at h; cases h; cases herr
  rw [ResolveAuction_run _ _ _ hne hp] at h
  cases hs : simulate auction fuel (startState auction bidders) with
  | none => rw [hs] at h; cases h
  | some x =>
    cases x with
    | error e => rw [hs] at h; cases h; cases herr
    | ok st => rw [hs] at h; exact ⟨st, rfl, (Option.some.inj h).symm⟩

/-- C5: whenever `ResolveAuction` returns without error with winning amount `w`
and some eligible bidder has `MaxBidCents = w`, the returned winner is the GUID of
the first bidder with that maximum among the eligible bidders taken in (stable)
time-sorted order, whatever bidder the simulation held as highest. -/
theorem C5_tie_break_returns_earliest_at_max (auction : Auction) (bidders : List Bidder)
    (r : ResolveResult) (hret : Returns auction bidders r) (herr : r.err = none)
    (hex : ∃ b ∈ bidders, Eligible auction b ∧ b.BidStrategy.MaxBidCents = r.amount) :
    ((((sortBiddersByEarliest bidders).filter (fun b => decide (Eligible auction b))).find?
      (fun b => decide (b.BidStrategy.MaxBidCents = r.amount))).map (·.GUID)) = some r.winner := by
  obtain ⟨fuel, hfuel⟩ := hret
  obtain ⟨st, _, hr⟩ := ResolveAuction_ok hfuel herr
  obtain ⟨b, hb, helig, hmax⟩ := hex
  have hpool : (sortBiddersByEarliest bidders).filter (fun b => decide (Eligible auction b)) =
      removeBiddersUnderMin (sortBiddersByEarliest bidders) auction.minPriceCents := by
    rw [removeBiddersUnderMin_eq]; rfl
  rw [hpool]
  have hmem : b ∈ removeBiddersUnderMin (sortBiddersByEarliest bidders) auction.minPriceCents :=
    mem_removeBiddersUnderMin.2 ⟨mem_sort.2 hb, helig⟩
  have hamt : r.amount = bidOf st.bids st.highestBidder := by
    rw [hr]; unfold finalResult; split <;> rfl
  cases hf : (removeBiddersUnderMin (sortBiddersByEarliest bidders) auction.minPriceCents).find?
      (fun b => decide (b.BidStrategy.MaxBidCents = r.amount)) with
  | none =>
    have := List.find?_eq_none.1 hf b hmem
    simp [hmax] at this
  | some w =>
    have hw : r.winner = w.GUID := by
      have hlook := maxBidWinners_pool auction bidders (bidOf st.bids st.highestBidder)
      rw [hamt] at hf
      rw [hf] at hlook
      rw [hr]; unfold finalResult
      rw [hlook]; rfl
    simp [hw]

/-- C5 at a two-bidder input: the simulation ends with "High" as highest bidder
at 1500, which is the maximum of the earlier bidder "Low", and "Low" is returned. -/
theorem C5_witness :
    ((((sortBiddersByEarliest
        [{ GUID := "Low", BidStrategy := { MaxBidCents := 1500, BidIncrementCents := 500 },
           InitialBid := { CreatedAt := 1, AmountCents := 1000 } },
         { GUID := "High", BidStrategy := { MaxBidCents := 30000, BidIncrementCents := 500 },
           InitialBid := { CreatedAt := 2, AmountCents := 500 } }]).filter
        (fun b => decide (Eligible { id := "testAuction", minPriceCents := 100 } b))).find?
      (fun b => decide (b.BidStrategy.MaxBidCents = 1500))).map (·.GUID)) = some "Low" :=
  C5_tie_break_returns_earliest_at_max { id := "testAuction", minPriceCents := 100 } _
    { winner := "Low", amount := 1500, err := none } ⟨3, by decide⟩ rfl
    ⟨{ GUID := "Low", BidStrategy := { MaxBidCents := 1500, BidIncrementCents := 500 },
       InitialBid := { CreatedAt := 1, AmountCents := 1000 } }, by decide, by decide, rfl⟩

/-- C7: an empty bidder list yields the empty GUID, amount 0 and the "no bidders"
error, and no non-empty bidder list yields that error. -/
theorem C7_no_bidders_error (fuel : Nat) (auction : Auction) :
    ResolveAuction fuel auction [] = some ⟨"", 0, some AuctionError.noBidders⟩ ∧
    ∀ (bidders : List Bidder) (r : ResolveResult), bidders ≠ [] →
      ResolveAuction fuel auction bidders = some r → r.err ≠ some AuctionError.noBidders := by
  refine ⟨ResolveAuction_nil fuel auction, ?_⟩
  intro bidders r hne h
  by_cases hp : removeBiddersUnderMin (sortBiddersByEarliest bidders) auction.minPriceCents = []
  · rw [ResolveAuction_cheap _ _ _ hne hp] at h; cases h; simp
  rw [ResolveAuction_run _ _ _ hne hp] at h
  cases hs : simulate auction fuel (startState auction bidders) with
  | none => rw [hs] at h; cases h
  | some x =>
    cases x with
    | error e =>
      rw [hs] at h; cases h
      rw [simulate_error auction _ _ _ hs]; simp
    | ok st =>
      rw [hs] at h; cases h
      unfold finalResult; split <;> simp

/-- C7 at the inputs of the "no bidders" and "one bidder, bidderMax < auctionMin"
tests. -/
theorem C7_witness :
    ResolveAuction 1 { id := "testAuction", minPriceCents := 10000 } [] =
        some ⟨"", 0, some AuctionError.noBidders⟩ ∧
    (⟨"", 0, some AuctionError.allBiddersTooCheap⟩ : ResolveResult).err ≠
        some AuctionError.noBidders :=
  ⟨(C7_no_bidders_error 1 { id := "testAuction", minPriceCents := 10000 }).1,
   (C7_no_bidders_error 1 { id := "testAuction", minPriceCents := 10000 }).2
    [{ GUID := "Cheapskate", BidStrategy := { MaxBidCents := 2000, BidIncrementCents := 500 },
       InitialBid := { CreatedAt := 1, AmountCents := 1000 } }]
    ⟨"", 0, some AuctionError.allBiddersTooCheap⟩ (by decide) (by decide)⟩

/-- C8: for a non-empty bidder list, `ResolveAuction` returns the "all bidders too
cheap" error exactly when every bidder's maximum is strictly below the minimum
price, and a result carrying that error has the empty GUID and amount 0. -/
theorem C8_all_bidders_too_cheap (fuel : Nat) (auction : Auction) (bidders : List Bidder)
    (hne : bidders ≠ []) :
    ((∃ r, ResolveAuction fuel auction bidders = some r ∧
        r.err = some AuctionError.allBiddersTooCheap) ↔
      ∀ b ∈ bidders, b.BidStrategy.MaxBidCents < auction.minPriceCents) ∧
    ∀ r, ResolveAuction fuel auction bidders = some r →
      r.err = some AuctionError.allBiddersTooCheap → r.winner = "" ∧ r.amount = 0 := by
  have hpool : removeBiddersUnderMin (sortBiddersByEarliest bidders) auction.minPriceCents = [] ↔
      ∀ b ∈ bidders, b.BidStrategy.MaxBidCents < auction.minPriceCents := by
    rw [List.eq_nil_iff_forall_not_mem]
    constructor
    · intro h b hb
      by_contra hlt
      exact h b (mem_removeBiddersUnderMin.2 ⟨mem_sort.2 hb, by omega⟩)
    · intro h b hb
      obtain ⟨hb1, hb2⟩ := mem_removeBiddersUnderMin.1 hb
      have := h b (mem_sort.1 hb1)
      omega
  have key : ∀ r, ResolveAuction fuel auction bidders = some r →
      r.err = some AuctionError.allBiddersTooCheap →
      removeBiddersUnderMin (sortBiddersByEarliest bidders) auction.minPriceCents = [] ∧
        r.winner = "" ∧ r.amount = 0 := by
    intro r h herr
    by_cases hp : removeBiddersUnderMin (sortBiddersByEarliest bidders) auction.minPriceCents = []
    · rw [ResolveAuction_cheap _ _ _ hne hp] at h; cases h; exact ⟨hp, rfl, rfl⟩
    rw [ResolveAuction_run _ _ _ hne hp] at h
    cases hs : simulate auction fuel (startState auction bidders) with
    | none => rw [hs] at h; cases h
    | some x =>
      cases x with
      | error e =>
        rw [hs] at h; cases h
        rw [simulate_error auction _ _ _ hs] at herr; cases herr
      | ok st =>
        rw [hs] at h; cases h
        revert herr; unfold finalResult; split <;> simp
  refine ⟨⟨?_, ?_⟩, fun r h herr => (key r h herr).2⟩
  · rintro ⟨r, h, herr⟩
    exact hpool.1 (key r h herr).1
  · intro h
    exact ⟨_, ResolveAuction_cheap _ _ _ hne (hpool.2 h), rfl⟩

/-- C8 at the "one bidder, bidderMax < auctionMin" test. -/
theorem C8_witness :
    ∃ r, ResolveAuction 1 { id := "testAuction", minPriceCents := 10000 }
        [{ GUID := "Cheapskate", BidStrategy := { MaxBidCents := 2000, BidIncrementCents := 500 },
           InitialBid := { CreatedAt := 1, AmountCents := 1000 } }] = some r ∧
      r.err = some AuctionError.allBiddersTooCheap :=
  (C8_all_bidders_too_cheap 1 { id := "testAuction", minPriceCents := 10000 }
    [{ GUID := "Cheapskate", BidStrategy := { MaxBidCents := 2000, BidIncrementCents := 500 },
       InitialBid := { CreatedAt := 1, AmountCents := 1000 } }] (by decide)).1.2 (by decide)

/-! ## Ladders: the simulation on one, two and three bidders -/

/-- Once at most one bidder is left and the highest bid has reached the minimum
price, the loop exits without touching the bids or the highest bidder. -/
theorem simulate_finish (auction : Auction) (pool : List Bidder) (bids : BidsMap) (h : String)
    (hlen : pool.length ≤ 1) (hmin : auction.minPriceCents ≤ bidOf bids h) :
    ∃ fuel st', simulate auction fuel ⟨pool, bids, h, true⟩ = some (.ok st') ∧
      st'.bids = bids ∧ st'.highestBidder = h := by
  match pool, hlen with
  | [], _ => exact ⟨2, ⟨[], bids, h, false⟩, simulate_empty auction 0 _ rfl rfl, rfl, rfl⟩
  | [b], _ =>
    refine ⟨2, ⟨deleteFunc [b] (eliminated bids h), bids, h, false⟩, ?_, rfl, rfl⟩
    rw [simulate_step auction 1 ⟨[b], bids, h, true⟩ ⟨[b], bids, h, false⟩ rfl (by simp)
      (by simp [runPass, passBody, not_lt.2 hmin])]
    exact simulate_settled auction 0 _ rfl

/-- The lone-bidder ladder: a bidder alone in the pool, `n + 1` increments short
of the first step at or above the minimum price, is raised to that step when the
step does not exceed its maximum. -/
theorem lone_ladder (auction : Auction) (b : Bidder)
    (hinc : 0 < b.BidStrategy.BidIncrementCents)
    (hmax : b.BidStrategy.MaxBidCents < int64Half) :
    ∀ (n : Nat) (bids : BidsMap) (x : Int), bids b.GUID = some x → 0 < x →
      x + n * b.BidStrategy.BidIncrementCents < auction.minPriceCents →
      auction.minPriceCents ≤ x + (n + 1 : Nat) * b.BidStrategy.BidIncrementCents →
      x + (n + 1 : Nat) * b.BidStrategy.BidIncrementCents ≤ b.BidStrategy.MaxBidCents →
      ∃ fuel st', simulate auction fuel ⟨[b], bids, b.GUID, true⟩ = some (.ok st') ∧
        st'.highestBidder = b.GUID ∧
        bidOf st'.bids b.GUID = x + (n + 1 : Nat) * b.BidStrategy.BidIncrementCents := by
  intro n
  induction n with
  | zero =>
    intro bids x hx hpos hlt hge hle
    simp only [Nat.cast_zero, zero_mul, add_zero, zero_add, Nat.cast_one, one_mul] at hlt hge hle ⊢
    have hw : wrapInt64 (x + b.BidStrategy.BidIncrementCents) = x + b.BidStrategy.BidIncrementCents :=
      wrapInt64_eq ⟨by unfold int64Half; omega, by omega⟩
    have hpass : runPass auction [b] ⟨[b], bids, b.GUID, true⟩ =
        .ok ⟨[b], setKey bids b.GUID (x + b.BidStrategy.BidIncrementCents), b.GUID, true⟩ := by
      simp [runPass, passBody, bidOf, hx, hlt, hw]
    obtain ⟨fuel, st', hsim, hb, hh⟩ := simulate_finish auction
      (deleteFunc [b] (eliminated (setKey bids b.GUID (x + b.BidStrategy.BidIncrementCents)) b.GUID))
      (setKey bids b.GUID (x + b.BidStrategy.BidIncrementCents)) b.GUID
      (by unfold deleteFunc
          exact le_trans (List.length_filter_le _ _) (by simp))
      (by simp [bidOf, setKey, hge])
    refine ⟨fuel + 1, st', ?_, hh, ?_⟩
    · rw [simulate_step auction fuel _ _ rfl (by simp) hpass]; exact hsim
    · rw [hb]; simp [bidOf, setKey]
  | succ n ih =>
    intro bids x hx hpos hlt hge hle
    have hd := hinc
    have hn : (0 : Int) ≤ (n : Int) * b.BidStrategy.BidIncrementCents :=
      Int.mul_nonneg (Int.ofNat_nonneg n) (le_of_lt hinc)
    push_cast at hlt hge hle
    have e1 : ((n : Int) + 1) * b.BidStrategy.BidIncrementCents =
        n * b.BidStrategy.BidIncrementCents + b.BidStrategy.BidIncrementCents := by ring
    have e2 : ((n : Int) + 1 + 1) * b.BidStrategy.BidIncrementCents =
        n * b.BidStrategy.BidIncrementCents + b.BidStrategy.BidIncrementCents +
          b.BidStrategy.BidIncrementCents := by ring
    rw [e1] at hlt
    rw [e2] at hge hle
    have hw : wrapInt64 (x + b.BidStrategy.BidIncrementCents) = x + b.BidStrategy.BidIncrementCents :=
      wrapInt64_eq ⟨by unfold int64Half; omega, by omega⟩
    have hw2 : wrapInt64 (b.BidStrategy.BidIncrementCents + (x + b.BidStrategy.BidIncrementCents)) =
        b.BidStrategy.BidIncrementCents + (x + b.BidStrategy.BidIncrementCents) :=
      wrapInt64_eq ⟨by unfold int64Half; omega, by omega⟩
    have hpass : runPass auction [b] ⟨[b], bids, b.GUID, true⟩ =
        .ok ⟨[b], setKey bids b.GUID (x + b.BidStrategy.BidIncrementCents), b.GUID, true⟩ := by
      have : x < auction.minPriceCents := by omega
      simp [runPass, passBody, bidOf, hx, this, hw]
    have hkeep : deleteFunc [b]
        (eliminated (setKey bids b.GUID (x + b.BidStrategy.BidIncrementCents)) b.GUID) = [b] := by
      have h1 : ¬ b.BidStrategy.MaxBidCents ≤ x + b.BidStrategy.BidIncrementCents := by omega
      have h2 : ¬ b.BidStrategy.MaxBidCents <
          b.BidStrategy.BidIncrementCents + (x + b.BidStrategy.BidIncrementCents) := by omega
      simp [deleteFunc, eliminated, bidOf, setKey, hw2, h1, h2]
    obtain ⟨fuel, st', hsim, hh, hamt⟩ := ih
      (setKey bids b.GUID (x + b.BidStrategy.BidIncrementCents))
      (x + b.BidStrategy.BidIncrementCents) (by simp [setKey]) (by omega)
      (by omega) (by push_cast; rw [e1]; omega) (by push_cast; rw [e1]; omega)
    refine ⟨fuel + 1, st', ?_, hh, ?_⟩
    · rw [simulate_step auction fuel _ _ rfl (by simp) hpass]
      simp only [hkeep]; exact hsim
    · rw [hamt]; push_cast; rw [e1, e2]; ring
/-- When exactly one bidder is eligible, the working pool is that bidder alone. -/
theorem pool_of_single_eligible (auction : Auction) (bidders : List Bidder) (b : Bidder)
    (honly : bidders.filter (fun x => decide (Eligible auction x)) = [b]) :
    removeBiddersUnderMin (sortBiddersByEarliest bidders) auction.minPriceCents = [b] := by
  rw [removeBiddersUnderMin_eq]
  have hp : ((sortBiddersByEarliest bidders).filter
      (fun x => decide (auction.minPriceCents ≤ x.BidStrategy.MaxBidCents))).Perm
      (bidders.filter (fun x => decide (Eligible auction x))) := (sort_perm bidders).filter _
  rw [honly] at hp
  exact List.perm_singleton.1 hp

/-- The final lookup returns the simulation's highest bidder `g` whenever the
tie-break table has no entry for the winning amount, or has `g` itself. -/
theorem finalResult_eq (m : MaxBidsMap) (st : SimState) (g : String) (v : Int)
    (hh : st.highestBidder = g) (hamt : bidOf st.bids g = v)
    (hm : m v = none ∨ m v = some g) : finalResult m st = ⟨g, v, none⟩ := by
  unfold finalResult
  rw [hh, hamt]
  rcases hm with h | h <;> rw [h]

/-- C9 (as stated, fails on the code).  With minimum 1800, the only bidder
(maximum 2000, increment 600, initial bid 1000) does not win at the first
reachable amount at or above the minimum, 1000 + 2 * 600: it is removed from the
pool after its raise to 1600.  With minimum 100, the only bidder (maximum 2000,
increment 500, initial bid 0) is not returned as the winner: the empty GUID is. -/
theorem C9_counterexample :
    (¬ Returns { id := "testAuction", minPriceCents := 1800 }
        [{ GUID := "A", BidStrategy := { MaxBidCents := 2000, BidIncrementCents := 600 },
           InitialBid := { CreatedAt := 1, AmountCents := 1000 } }]
        { winner := "A", amount := 1000 + 2 * 600, err := none } ∧
      (1000 + 1 * 600 : Int) < 1800 ∧ (1800 : Int) ≤ 1000 + 2 * 600) ∧
    (¬ Returns { id := "testAuction", minPriceCents := 100 }
        [{ GUID := "A", BidStrategy := { MaxBidCents := 2000, BidIncrementCents := 500 },
           InitialBid := { CreatedAt := 1, AmountCents := 0 } }]
        { winner := "A", amount := 0 + 1 * 500, err := none } ∧
      (0 : Int) < 100 ∧ (100 : Int) ≤ 0 + 1 * 500) := by
  refine ⟨⟨fun h => ?_, by decide, by decide⟩, ⟨fun h => ?_, by decide, by decide⟩⟩
  · have h' : Returns { id := "testAuction", minPriceCents := 1800 }
        [{ GUID := "A", BidStrategy := { MaxBidCents := 2000, BidIncrementCents := 600 },
           InitialBid := { CreatedAt := 1, AmountCents := 1000 } }]
        { winner := "A", amount := 1600, err := none } := ⟨3, by decide⟩
    exact absurd (Returns_unique h h') (by decide)
  · have h' : Returns { id := "testAuction", minPriceCents := 100 }
        [{ GUID := "A", BidStrategy := { MaxBidCents := 2000, BidIncrementCents := 500 },
           InitialBid := { CreatedAt := 1, AmountCents := 0 } }]
        { winner := "", amount := 500, err := none } := ⟨3, by decide⟩
    exact absurd (Returns_unique h h') (by decide)

/-- C9 (amended): when exactly one bidder is eligible, its increment `d` is
positive, its initial bid `a` is positive and below the minimum price, and the
first amount `a + k * d` (`k ≥ 1`) at or above the minimum price does not exceed
the bidder's maximum, `ResolveAuction` succeeds: that bidder wins at `a + k * d`. -/
theorem C9_single_eligible_bidder_reaches_min (auction : Auction) (bidders : List Bidder)
    (b : Bidder) (k : Nat)
    (honly : bidders.filter (fun x => decide (Eligible auction x)) = [b])
    (hinc : 0 < b.BidStrategy.BidIncrementCents)
    (hpos : 0 < b.InitialBid.AmountCents)
    (hbelow : b.InitialBid.AmountCents < auction.minPriceCents)
    (hk : 1 ≤ k)
    (hreach : auction.minPriceCents ≤
      b.InitialBid.AmountCents + (k : Int) * b.BidStrategy.BidIncrementCents)
    (hleast : ∀ j : Nat, 1 ≤ j → auction.minPriceCents ≤
      b.InitialBid.AmountCents + (j : Int) * b.BidStrategy.BidIncrementCents → k ≤ j)
    (hcap : b.InitialBid.AmountCents + (k : Int) * b.BidStrategy.BidIncrementCents ≤
      b.BidStrategy.MaxBidCents)
    (hrange : InInt64 b.BidStrategy.MaxBidCents) :
    Returns auction bidders
      ⟨b.GUID, b.InitialBid.AmountCents + (k : Int) * b.BidStrategy.BidIncrementCents, none⟩ := by
  have hpool := pool_of_single_eligible auction bidders b honly
  have hne : bidders ≠ [] := by
    intro h; rw [h] at honly; cases honly
  obtain ⟨n, rfl⟩ : ∃ n, k = n + 1 := ⟨k - 1, by omega⟩
  have hprev : b.InitialBid.AmountCents + (n : Int) * b.BidStrategy.BidIncrementCents <
      auction.minPriceCents := by
    rcases Nat.eq_zero_or_pos n with h0 | h0
    · subst h0; simpa using hbelow
    · by_contra hcon
      have := hleast n h0 (not_lt.1 hcon)
      omega
  obtain ⟨fuel, st', hsim, hh, hamt⟩ := lone_ladder auction b hinc hrange.2 n
    (setKey emptyMap b.GUID b.InitialBid.AmountCents) b.InitialBid.AmountCents
    (by simp [setKey]) hpos hprev hreach hcap
  have hstart : startState auction bidders =
      ⟨[b], setKey emptyMap b.GUID b.InitialBid.AmountCents, b.GUID, true⟩ := by
    simp [startState, hpool, getInitialBids, isSortedByBidTime, getInitialBidsLoop, hpos]
  refine ⟨fuel, ?_⟩
  rw [ResolveAuction_run _ _ _ hne (by rw [hpool]; simp), hstart, hsim]
  simp only
  rw [finalResult_eq _ st' b.GUID _ hh hamt]
  rw [maxBidWinners_pool, hpool]
  by_cases hv : b.BidStrategy.MaxBidCents =
      b.InitialBid.AmountCents + ((n + 1 : Nat) : Int) * b.BidStrategy.BidIncrementCents
  · right; simp only [List.find?, hv, decide_True, Option.map]
  · left; simp only [List.find?, hv, decide_False, Option.map]

/-- C9 (amended) at the "one bidder, bidderMax > auctionMin" test: forty
increments of 20 lead from 1000 to the minimum price 1800. -/
theorem C9_witness :
    Returns { id := "testAuction", minPriceCents := 1800 }
      [{ GUID := "Low", BidStrategy := { MaxBidCents := 2000, BidIncrementCents := 20 },
         InitialBid := { CreatedAt := 1, AmountCents := 1000 } }]
      ⟨"Low", 1000 + ((40 : Nat) : Int) * 20, none⟩ :=
  C9_single_eligible_bidder_reaches_min { id := "testAuction", minPriceCents := 1800 }
    [{ GUID := "Low", BidStrategy := { MaxBidCents := 2000, BidIncrementCents := 20 },
       InitialBid := { CreatedAt := 1, AmountCents := 1000 } }]
    { GUID := "Low", BidStrategy := { MaxBidCents := 2000, BidIncrementCents := 20 },
      InitialBid := { CreatedAt := 1, AmountCents := 1000 } } 40
    (by decide) (by decide) (by decide) (by decide) (by decide) (by decide)
    (fun j _ h => by simp only at h; omega) (by decide) (by decide)

/-- C4 (as stated, fails on the code).  With minimum 100, "Low" (maximum 2100,
increment 500, initial bid 1000) and the later "High" (maximum 30000, increment
500, initial bid 500) are both eligible and the runner-up's maximum plus the
winner's increment, 2100 + 500, is below the winner's maximum; the code returns
"High" at 2500, the first rung of the ladder 1000, 1500, 2000, 2500 that reaches
2100. -/
theorem C4_counterexample :
    ¬ ∃ r, Returns { id := "testAuction", minPriceCents := 100 }
        [{ GUID := "Low", BidStrategy := { MaxBidCents := 2100, BidIncrementCents := 500 },
           InitialBid := { CreatedAt := 1, AmountCents := 1000 } },
         { GUID := "High", BidStrategy := { MaxBidCents := 30000, BidIncrementCents := 500 },
           InitialBid := { CreatedAt := 2, AmountCents := 500 } }] r ∧
      r.err = none ∧ r.amount = 2100 + 500 := by
  rintro ⟨r, h, -, hamt⟩
  have h' : Returns { id := "testAuction", minPriceCents := 100 }
      [{ GUID := "Low", BidStrategy := { MaxBidCents := 2100, BidIncrementCents := 500 },
         InitialBid := { CreatedAt := 1, AmountCents := 1000 } },
       { GUID := "High", BidStrategy := { MaxBidCents := 30000, BidIncrementCents := 500 },
         InitialBid := { CreatedAt := 2, AmountCents := 500 } }]
      { winner := "High", amount := 2500, err := none } := ⟨4, by decide⟩
  rw [Returns_unique h h'] at hamt
  exact absurd hamt (by decide)

/-- In a pool of two or more, a bidder that is not the highest bidder and whose
raise stays within its maximum takes the lead. -/
theorem passBody_raise (auction : Auction) (p q b : Bidder) (rest : List Bidder) (bids : BidsMap)
    (h : String) (hb d : Int) (hne : h ≠ b.GUID) (hbid : bids h = some hb)
    (hd : b.BidStrategy.BidIncrementCents = d) (hpos : 0 < d) (hlow : 0 < hb)
    (hle : hb + d ≤ b.BidStrategy.MaxBidCents) (hrange : b.BidStrategy.MaxBidCents < int64Half) :
    passBody auction ⟨p :: q :: rest, bids, h, true⟩ b =
      .ok ⟨p :: q :: rest, setKey bids b.GUID (hb + d), b.GUID, true⟩ := by
  have hw : wrapInt64 (hb + d) = hb + d := wrapInt64_eq ⟨by unfold int64Half; omega, by omega⟩
  simp [passBody, hne, hbid, hd, hw, hpos, hle]

/-- In a pool of two or more, a bidder whose maximum the highest bid has already
reached does not raise. -/
theorem passBody_hold (auction : Auction) (p q b : Bidder) (rest : List Bidder) (bids : BidsMap)
    (h : String) (hb : Int) (hbid : bids h = some hb) (hle : b.BidStrategy.MaxBidCents ≤ hb) :
    passBody auction ⟨p :: q :: rest, bids, h, true⟩ b =
      .ok ⟨p :: q :: rest, bids, h, true⟩ := by
  by_cases hne : h = b.GUID
  · simp [passBody, hne]
  · have : ¬ (hb < wrapInt64 (hb + b.BidStrategy.BidIncrementCents) ∧
        wrapInt64 (hb + b.BidStrategy.BidIncrementCents) ≤ b.BidStrategy.MaxBidCents) := by omega
    simp only [passBody, hne, if_false, hbid, gt_iff_lt, this]

/-- The highest bidder does not bid against itself. -/
theorem passBody_skip (auction : Auction) (p q b : Bidder) (rest : List Bidder) (bids : BidsMap) :
    passBody auction ⟨p :: q :: rest, bids, b.GUID, true⟩ b =
      .ok ⟨p :: q :: rest, bids, b.GUID, true⟩ := by
  simp [passBody]

/-- When the highest bid has reached every maximum in the pool, the pool is
emptied. -/
theorem deleteFunc_all (pool : List Bidder) (bids : BidsMap) (h : String)
    (hall : ∀ b ∈ pool, b.BidStrategy.MaxBidCents ≤ bidOf bids h) :
    deleteFunc pool (eliminated bids h) = [] := by
  unfold deleteFunc
  rw [List.filter_eq_nil_iff]
  intro b hb
  simp [eliminated, hall b hb]

/-- A pass that ends with the highest bid equal to the common maximum of the
pool ends the simulation with that amount. -/
theorem simulate_all_out (auction : Auction) (pool : List Bidder) (st st' : SimState) (m : Int)
    (hel : st.eligibleBidders = true) (hp : st.bidders ≠ [])
    (hpass : runPass auction st.bidders st = .ok st')
    (hel' : st'.eligibleBidders = true) (hpool : st'.bidders = pool)
    (hmax : ∀ b ∈ pool, b.BidStrategy.MaxBidCents = m)
    (hamt : bidOf st'.bids st'.highestBidder = m) :
    ∃ fuel st'', simulate auction fuel st = some (.ok st'') ∧
      bidOf st''.bids st''.highestBidder = m := by
  have hdel : deleteFunc st'.bidders (eliminated st'.bids st'.highestBidder) = [] :=
    deleteFunc_all _ _ _ (fun b hb => by rw [hamt, hmax b (hpool ▸ hb)])
  refine ⟨3, ⟨[], st'.bids, st'.highestBidder, false⟩, ?_, hamt⟩
  rw [simulate_step auction 2 st st' hel hp hpass, hdel]
  exact simulate_empty auction 0 _ hel' rfl
/-- The three-bidder ladder: three bidders with one maximum `m` and one increment
`d` hold `x`, `x + d` and `x + d + d`, the last one being the highest bidder, and
`m` lies a whole number of increments above.  The simulation ends with the highest
bid equal to `m`. -/
theorem three_ladder (auction : Auction) (e h s : Bidder) (d m : Int)
    (heh : e.GUID ≠ h.GUID) (hes : e.GUID ≠ s.GUID) (hhs : h.GUID ≠ s.GUID)
    (hde : e.BidStrategy.BidIncrementCents = d) (hdh : h.BidStrategy.BidIncrementCents = d)
    (hds : s.BidStrategy.BidIncrementCents = d) (hd : 0 < d)
    (hme : e.BidStrategy.MaxBidCents = m) (hmh : h.BidStrategy.MaxBidCents = m)
    (hms : s.BidStrategy.MaxBidCents = m) (hrange : m < int64Half) :
    ∀ (r : Nat) (bids : BidsMap) (x : Int), 1 ≤ r →
      bids e.GUID = some x → bids h.GUID = some (x + d) → bids s.GUID = some (x + d + d) →
      0 < x → m = x + d + d + (r : Int) * d →
      ∃ fuel st', simulate auction fuel ⟨[e, h, s], bids, s.GUID, true⟩ = some (.ok st') ∧
        bidOf st'.bids st'.highestBidder = m := by
  have hall : ∀ b ∈ [e, h, s], b.BidStrategy.MaxBidCents = m := by
    intro b hb
    simp only [List.mem_cons, List.mem_singleton, List.not_mem_nil, or_false] at hb
    rcases hb with rfl | rfl | rfl <;> assumption
  intro r
  induction r using Nat.strong_induction_on with
  | _ r ih =>
    intro bids x hr hbe hbh hbs hx hm
    -- `e` always raises, to `x + 3d`
    have pe := passBody_raise auction e h e [s] bids s.GUID (x + d + d) d (Ne.symm hes) hbs hde hd
      (by omega) (by rw [hme, hm]; nlinarith) (by rw [hme]; exact hrange)
    by_cases h1 : r = 1
    · subst h1
      simp only [Nat.cast_one, one_mul] at hm
      have ph := passBody_hold auction e h h [s] (setKey bids e.GUID (x + d + d + d)) e.GUID
        (x + d + d + d) (by simp [setKey]) (by rw [hmh, hm])
      have ps := passBody_hold auction e h s [s] (setKey bids e.GUID (x + d + d + d)) e.GUID
        (x + d + d + d) (by simp [setKey]) (by rw [hms, hm])
      have hpass : runPass auction [e, h, s] ⟨[e, h, s], bids, s.GUID, true⟩ =
          .ok ⟨[e, h, s], setKey bids e.GUID (x + d + d + d), e.GUID, true⟩ := by
        simp only [runPass, pe, ph, ps]
      exact simulate_all_out auction [e, h, s] _ _ m rfl (by simp) hpass rfl rfl hall
        (by simp [bidOf, setKey, hm])
    -- otherwise `h` raises too, to `x + 4d`
    have hr2 : (2 : Int) ≤ r := by omega
    have ph := passBody_raise auction e h h [s] (setKey bids e.GUID (x + d + d + d)) e.GUID
      (x + d + d + d) d heh (by simp [setKey]) hdh hd (by omega)
      (by rw [hmh, hm]; nlinarith) (by rw [hmh]; exact hrange)
    by_cases h2 : r = 2
    · subst h2
      have hm' : m = x + d + d + d + d := by rw [hm]; push_cast; ring
      have ps := passBody_hold auction e h s [s]
        (setKey (setKey bids e.GUID (x + d + d + d)) h.GUID (x + d + d + d + d)) h.GUID
        (x + d + d + d + d) (by simp [setKey]) (by rw [hms, hm'])
      have hpass : runPass auction [e, h, s] ⟨[e, h, s], bids, s.GUID, true⟩ =
          .ok ⟨[e, h, s], setKey (setKey bids e.GUID (x + d + d + d)) h.GUID (x + d + d + d + d),
            h.GUID, true⟩ := by
        simp only [runPass, pe, ph, ps]
      exact simulate_all_out auction [e, h, s] _ _ m rfl (by simp) hpass rfl rfl hall
        (by simp [bidOf, setKey, hm'])
    -- otherwise `s` raises as well, to `x + 5d`
    have hr3 : (3 : Int) ≤ r := by omega
    have ps := passBody_raise auction e h s [s]
      (setKey (setKey bids e.GUID (x + d + d + d)) h.GUID (x + d + d + d + d)) h.GUID
      (x + d + d + d + d) d hhs (by simp [setKey]) hds hd (by omega)
      (by rw [hms, hm]; nlinarith) (by rw [hms]; exact hrange)
    have hpass : runPass auction [e, h, s] ⟨[e, h, s], bids, s.GUID, true⟩ =
        .ok ⟨[e, h, s], setKey (setKey (setKey bids e.GUID (x + d + d + d)) h.GUID
          (x + d + d + d + d)) s.GUID (x + d + d + d + d + d), s.GUID, true⟩ := by
      simp only [runPass, pe, ph, ps]
    by_cases h3 : r = 3
    · subst h3
      have hm' : m = x + d + d + d + d + d := by rw [hm]; push_cast; ring
      exact simulate_all_out auction [e, h, s] _ _ m rfl (by simp) hpass rfl rfl hall
        (by simp [bidOf, setKey, hm'])
    -- four or more increments to go: nobody is removed, and the ladder repeats
    have hr4 : (4 : Int) ≤ r := by omega
    have hm4 : x + d + d + d + d + d + d ≤ m := by rw [hm]; nlinarith
    have hw : ∀ v : Int, 0 < v → v ≤ x + d + d + d + d + d → wrapInt64 (d + v) = d + v :=
      fun v hv0 hv => wrapInt64_eq ⟨by unfold int64Half; omega, by omega⟩
    have hkeep : deleteFunc [e, h, s] (eliminated
        (setKey (setKey (setKey bids e.GUID (x + d + d + d)) h.GUID (x + d + d + d + d)) s.GUID
          (x + d + d + d + d + d)) s.GUID) = [e, h, s] := by
      have a0 : ¬ m ≤ x + d + d + d + d + d := by omega
      have a1 : ¬ m < d + (x + d + d + d) := by omega
      have a2 : ¬ m < d + (x + d + d + d + d) := by omega
      have a3 : ¬ m < d + (x + d + d + d + d + d) := by omega
      simp [deleteFunc, eliminated, bidOf, setKey, heh, hes, hhs, hde, hdh, hds, hme, hmh, hms,
        hw (x + d + d + d) (by omega) (by omega), hw (x + d + d + d + d) (by omega) (by omega),
        hw (x + d + d + d + d + d) (by omega) (by omega), a0, a1, a2, a3]
    obtain ⟨fuel, st', hsim, hamt⟩ := ih (r - 3) (by omega)
      (setKey (setKey (setKey bids e.GUID (x + d + d + d)) h.GUID (x + d + d + d + d)) s.GUID
          (x + d + d + d + d + d)) (x + d + d + d) (by omega)
      (by simp [setKey, heh, hes]) (by simp [setKey, hhs]) (by simp [setKey]) (by omega)
      (by rw [hm]
          have : ((r - 3 : Nat) : Int) = (r : Int) - 3 := by omega
          rw [this]; ring)
    refine ⟨fuel + 1, st', ?_, hamt⟩
    rw [simulate_step auction fuel _ _ rfl (by simp) hpass]
    simp only [hkeep]; exact hsim
/-- The final lookup returns the tie-break table's entry for the winning amount
when there is one. -/
theorem finalResult_tie (m : MaxBidsMap) (st : SimState) (w : String) (v : Int)
    (hamt : bidOf st.bids st.highestBidder = v) (hm : m v = some w) :
    finalResult m st = ⟨w, v, none⟩ := by
  unfold finalResult
  rw [hamt, hm]

/-- C10 (as stated, fails on the code).  Three bidders with distinct GUIDs and
times share maximum, increment 20 and initial bid.  With maximum 1010 and initial
bid 1000 nobody can raise (1000 + 20 > 1010) and the earliest bidder wins at 1000,
not at the shared maximum.  With maximum 2000 and initial bid 0 the call fails
with the "missing highest bidder bid" error. -/
theorem C10_counterexample :
    (¬ ∃ r, Returns { id := "testAuction", minPriceCents := 100 }
        [{ GUID := "EarlyBird", BidStrategy := { MaxBidCents := 1010, BidIncrementCents := 20 },
           InitialBid := { CreatedAt := 1, AmountCents := 1000 } },
         { GUID := "HungryBird", BidStrategy := { MaxBidCents := 1010, BidIncrementCents := 20 },
           InitialBid := { CreatedAt := 2, AmountCents := 1000 } },
         { GUID := "SleepyBird", BidStrategy := { MaxBidCents := 1010, BidIncrementCents := 20 },
           InitialBid := { CreatedAt := 3, AmountCents := 1000 } }] r ∧
        r.err = none ∧ r.amount = 1010) ∧
    (¬ ∃ r, Returns { id := "testAuction", minPriceCents := 2000 }
        [{ GUID := "EarlyBird", BidStrategy := { MaxBidCents := 2000, BidIncrementCents := 20 },
           InitialBid := { CreatedAt := 1, AmountCents := 0 } },
         { GUID := "HungryBird", BidStrategy := { MaxBidCents := 2000, BidIncrementCents := 20 },
           InitialBid := { CreatedAt := 2, AmountCents := 0 } },
         { GUID := "SleepyBird", BidStrategy := { MaxBidCents := 2000, BidIncrementCents := 20 },
           InitialBid := { CreatedAt := 3, AmountCents := 0 } }] r ∧
        r.err = none) := by
  constructor
  · rintro ⟨r, h, -, hamt⟩
    have h' : Returns { id := "testAuction", minPriceCents := 100 }
        [{ GUID := "EarlyBird", BidStrategy := { MaxBidCents := 1010, BidIncrementCents := 20 },
           InitialBid := { CreatedAt := 1, AmountCents := 1000 } },
         { GUID := "HungryBird", BidStrategy := { MaxBidCents := 1010, BidIncrementCents := 20 },
           InitialBid := { CreatedAt := 2, AmountCents := 1000 } },
         { GUID := "SleepyBird", BidStrategy := { MaxBidCents := 1010, BidIncrementCents := 20 },
           InitialBid := { CreatedAt := 3, AmountCents := 1000 } }]
        { winner := "EarlyBird", amount := 1000, err := none } := ⟨3, by decide⟩
    rw [Returns_unique h h'] at hamt
    exact absurd hamt (by decide)
  · rintro ⟨r, h, herr⟩
    have h' : Returns { id := "testAuction", minPriceCents := 2000 }
        [{ GUID := "EarlyBird", BidStrategy := { MaxBidCents := 2000, BidIncrementCents := 20 },
           InitialBid := { CreatedAt := 1, AmountCents := 0 } },
         { GUID := "HungryBird", BidStrategy := { MaxBidCents := 2000, BidIncrementCents := 20 },
           InitialBid := { CreatedAt := 2, AmountCents := 0 } },
         { GUID := "SleepyBird", BidStrategy := { MaxBidCents := 2000, BidIncrementCents := 20 },
           InitialBid := { CreatedAt := 3, AmountCents := 0 } }]
        { winner := "", amount := 0, err := some AuctionError.missingHighestBid } :=
      ⟨1, by decide⟩
    rw [Returns_unique h h'] at herr
    exact absurd herr (by decide)

/-- C10 (amended): three bidders with distinct GUIDs and pairwise distinct
initial-bid times share the maximum `M ≥ minPriceCents`, the positive increment
`d` and the positive initial bid `a`, and `M` lies a whole, non-zero number of
increments above `a`.  Then `ResolveAuction` succeeds, the earliest bidder wins and
the winning amount is `M`. -/
theorem C10_three_tied_bidders_earliest_wins (auction : Auction) (bidders : List Bidder)
    (e h s : Bidder) (j : Nat)
    (hperm : bidders.Perm [e, h, s])
    (heh : e.GUID ≠ h.GUID) (hes : e.GUID ≠ s.GUID) (hhs : h.GUID ≠ s.GUID)
    (hte : e.InitialBid.CreatedAt < h.InitialBid.CreatedAt)
    (hts : h.InitialBid.CreatedAt < s.InitialBid.CreatedAt)
    (hd : 0 < e.BidStrategy.BidIncrementCents)
    (hdh : h.BidStrategy.BidIncrementCents = e.BidStrategy.BidIncrementCents)
    (hds : s.BidStrategy.BidIncrementCents = e.BidStrategy.BidIncrementCents)
    (hmh : h.BidStrategy.MaxBidCents = e.BidStrategy.MaxBidCents)
    (hms : s.BidStrategy.MaxBidCents = e.BidStrategy.MaxBidCents)
    (helig : auction.minPriceCents ≤ e.BidStrategy.MaxBidCents)
    (hah : h.InitialBid.AmountCents = e.InitialBid.AmountCents)
    (has : s.InitialBid.AmountCents = e.InitialBid.AmountCents)
    (hpos : 0 < e.InitialBid.AmountCents)
    (hj : 1 ≤ j)
    (hstep : e.BidStrategy.MaxBidCents =
      e.InitialBid.AmountCents + (j : Int) * e.BidStrategy.BidIncrementCents)
    (hrange : InInt64 e.BidStrategy.MaxBidCents) :
    Returns auction bidders ⟨e.GUID, e.BidStrategy.MaxBidCents, none⟩ := by
  have hnil : bidders ≠ [] := by
    intro h0; rw [h0] at hperm; simpa using hperm.length_eq
  have hsort : sortBiddersByEarliest bidders = [e, h, s] :=
    sort_eq_of_perm (by simp [hte, hts]; omega) hperm
  have hpool : removeBiddersUnderMin (sortBiddersByEarliest bidders) auction.minPriceCents =
      [e, h, s] := by
    rw [hsort, removeBiddersUnderMin_eq]
    simp [List.filter, helig, hmh, hms]
  have hall : ∀ b ∈ [e, h, s], b.BidStrategy.MaxBidCents = e.BidStrategy.MaxBidCents := by
    intro b hb
    simp only [List.mem_cons, List.mem_singleton, List.not_mem_nil, or_false] at hb
    rcases hb with rfl | rfl | rfl
    · rfl
    · exact hmh
    · exact hms
  have hstart : startState auction bidders =
      ⟨[e, h, s], setKey (setKey (setKey emptyMap e.GUID e.InitialBid.AmountCents) h.GUID
        e.InitialBid.AmountCents) s.GUID e.InitialBid.AmountCents, e.GUID, true⟩ := by
    have t1 : ¬ h.InitialBid.CreatedAt < e.InitialBid.CreatedAt := by omega
    have t2 : ¬ s.InitialBid.CreatedAt < h.InitialBid.CreatedAt := by omega
    simp [startState, hpool, getInitialBids, isSortedByBidTime, getInitialBidsLoop, hpos, hah, has,
      compare_neg_iff, t1, t2]
  -- it suffices that the simulation ends with the highest bid at the shared maximum
  suffices hsim : ∃ fuel st', simulate auction fuel
      ⟨[e, h, s], setKey (setKey (setKey emptyMap e.GUID e.InitialBid.AmountCents) h.GUID
        e.InitialBid.AmountCents) s.GUID e.InitialBid.AmountCents, e.GUID, true⟩ = some (.ok st') ∧
      bidOf st'.bids st'.highestBidder = e.BidStrategy.MaxBidCents by
    obtain ⟨fuel, st', hs, hamt⟩ := hsim
    refine ⟨fuel, ?_⟩
    rw [ResolveAuction_run _ _ _ hnil (by rw [hpool]; simp), hstart, hs]
    simp only
    rw [finalResult_tie _ st' e.GUID _ hamt]
    rw [maxBidWinners_pool, hpool]
    simp [List.find?]
  have hbe : (setKey (setKey (setKey emptyMap e.GUID e.InitialBid.AmountCents) h.GUID
      e.InitialBid.AmountCents) s.GUID e.InitialBid.AmountCents) e.GUID =
      some e.InitialBid.AmountCents := by simp [setKey, heh, hes]
  have hj1 : (1 : Int) ≤ j := by omega
  have pe := passBody_skip auction e h e [s] (setKey (setKey (setKey emptyMap e.GUID
    e.InitialBid.AmountCents) h.GUID e.InitialBid.AmountCents) s.GUID e.InitialBid.AmountCents)
  have ph := passBody_raise auction e h h [s] _ e.GUID e.InitialBid.AmountCents
    e.BidStrategy.BidIncrementCents heh hbe hdh hd hpos (by rw [hmh, hstep]; nlinarith)
    (by rw [hmh]; exact hrange.2)
  by_cases h1 : j = 1
  · subst h1
    simp only [Nat.cast_one, one_mul] at hstep
    have ps := passBody_hold auction e h s [s] (setKey (setKey (setKey (setKey emptyMap e.GUID
      e.InitialBid.AmountCents) h.GUID e.InitialBid.AmountCents) s.GUID e.InitialBid.AmountCents)
      h.GUID (e.InitialBid.AmountCents + e.BidStrategy.BidIncrementCents)) h.GUID
      (e.InitialBid.AmountCents + e.BidStrategy.BidIncrementCents) (by simp [setKey])
      (by rw [hms, hstep])
    have hpass : runPass auction [e, h, s] ⟨[e, h, s], setKey (setKey (setKey emptyMap e.GUID
        e.InitialBid.AmountCents) h.GUID e.InitialBid.AmountCents) s.GUID e.InitialBid.AmountCents,
        e.GUID, true⟩ =
        .ok ⟨[e, h, s], setKey (setKey (setKey (setKey emptyMap e.GUID
          e.InitialBid.AmountCents) h.GUID e.InitialBid.AmountCents) s.GUID
          e.InitialBid.AmountCents) h.GUID
          (e.InitialBid.AmountCents + e.BidStrategy.BidIncrementCents), h.GUID, true⟩ := by
      simp only [runPass, pe, ph, ps]
    exact simulate_all_out auction [e, h, s] _ _ _ rfl (by simp) hpass rfl rfl hall
      (by simp [bidOf, setKey, hstep])
  have hj2 : (2 : Int) ≤ j := by omega
  have ps := passBody_raise auction e h s [s] (setKey (setKey (setKey (setKey emptyMap e.GUID
      e.InitialBid.AmountCents) h.GUID e.InitialBid.AmountCents) s.GUID e.InitialBid.AmountCents)
      h.GUID (e.InitialBid.AmountCents + e.BidStrategy.BidIncrementCents)) h.GUID
      (e.InitialBid.AmountCents + e.BidStrategy.BidIncrementCents)
      e.BidStrategy.BidIncrementCents hhs (by simp [setKey]) hds hd (by omega)
      (by rw [hms, hstep]; nlinarith) (by rw [hms]; exact hrange.2)
  have hpass : runPass auction [e, h, s] ⟨[e, h, s], setKey (setKey (setKey emptyMap e.GUID
      e.InitialBid.AmountCents) h.GUID e.InitialBid.AmountCents) s.GUID e.InitialBid.AmountCents,
      e.GUID, true⟩ =
      .ok ⟨[e, h, s], setKey (setKey (setKey (setKey (setKey emptyMap e.GUID
        e.InitialBid.AmountCents) h.GUID e.InitialBid.AmountCents) s.GUID
        e.InitialBid.AmountCents) h.GUID
        (e.InitialBid.AmountCents + e.BidStrategy.BidIncrementCents)) s.GUID
        (e.InitialBid.AmountCents + e.BidStrategy.BidIncrementCents +
          e.BidStrategy.BidIncrementCents), s.GUID, true⟩ := by
    simp only [runPass, pe, ph, ps]
  by_cases h2 : j = 2
  · subst h2
    have hm' : e.BidStrategy.MaxBidCents = e.InitialBid.AmountCents +
        e.BidStrategy.BidIncrementCents + e.BidStrategy.BidIncrementCents := by
      rw [hstep]; push_cast; ring
    exact simulate_all_out auction [e, h, s] _ _ _ rfl (by simp) hpass rfl rfl hall
      (by simp [bidOf, setKey, hm'])
  have hj3 : (3 : Int) ≤ j := by omega
  have hm3 : e.InitialBid.AmountCents + e.BidStrategy.BidIncrementCents +
      e.BidStrategy.BidIncrementCents + e.BidStrategy.BidIncrementCents ≤
      e.BidStrategy.MaxBidCents := by rw [hstep]; nlinarith
  have hw : ∀ v : Int, 0 < v → v ≤ e.InitialBid.AmountCents + e.BidStrategy.BidIncrementCents +
      e.BidStrategy.BidIncrementCents →
      wrapInt64 (e.BidStrategy.BidIncrementCents + v) = e.BidStrategy.BidIncrementCents + v :=
    fun v hv0 hv => wrapInt64_eq ⟨by unfold int64Half; omega, by have := hrange.2; omega⟩
  have hkeep : deleteFunc [e, h, s] (eliminated
      (setKey (setKey (setKey (setKey (setKey emptyMap e.GUID
        e.InitialBid.AmountCents) h.GUID e.InitialBid.AmountCents) s.GUID
        e.InitialBid.AmountCents) h.GUID
        (e.InitialBid.AmountCents + e.BidStrategy.BidIncrementCents)) s.GUID
        (e.InitialBid.AmountCents + e.BidStrategy.BidIncrementCents +
          e.BidStrategy.BidIncrementCents)) s.GUID) = [e, h, s] := by
    have a0 : ¬ e.BidStrategy.MaxBidCents ≤ e.InitialBid.AmountCents +
        e.BidStrategy.BidIncrementCents + e.BidStrategy.BidIncrementCents := by omega
    have a1 : ¬ e.BidStrategy.MaxBidCents <
        e.BidStrategy.BidIncrementCents + e.InitialBid.AmountCents := by omega
    have a2 : ¬ e.BidStrategy.MaxBidCents < e.BidStrategy.BidIncrementCents +
        (e.InitialBid.AmountCents + e.BidStrategy.BidIncrementCents) := by omega
    have a3 : ¬ e.BidStrategy.MaxBidCents < e.BidStrategy.BidIncrementCents +
        (e.InitialBid.AmountCents + e.BidStrategy.BidIncrementCents +
          e.BidStrategy.BidIncrementCents) := by omega
    simp [deleteFunc, eliminated, bidOf, setKey, heh, hes, hhs, hdh, hds, hmh, hms,
      hw e.InitialBid.AmountCents (by omega) (by omega),
      hw (e.InitialBid.AmountCents + e.BidStrategy.BidIncrementCents) (by omega) (by omega),
      hw (e.InitialBid.AmountCents + e.BidStrategy.BidIncrementCents +
        e.BidStrategy.BidIncrementCents) (by omega) (by omega), a0, a1, a2, a3]
  obtain ⟨fuel, st', hsim, hamt⟩ := three_ladder auction e h s e.BidStrategy.BidIncrementCents
    e.BidStrategy.MaxBidCents heh hes hhs rfl hdh hds hd rfl hmh hms hrange.2 (j - 2)
    (setKey (setKey (setKey (setKey (setKey emptyMap e.GUID
        e.InitialBid.AmountCents) h.GUID e.InitialBid.AmountCents) s.GUID
        e.InitialBid.AmountCents) h.GUID
        (e.InitialBid.AmountCents + e.BidStrategy.BidIncrementCents)) s.GUID
        (e.InitialBid.AmountCents + e.BidStrategy.BidIncrementCents +
          e.BidStrategy.BidIncrementCents)) e.InitialBid.AmountCents (by omega)
    (by simp [setKey, heh, hes]) (by simp [setKey, hhs]) (by simp [setKey]) hpos
    (by rw [hstep]
        have : ((j - 2 : Nat) : Int) = (j : Int) - 2 := by omega
        rw [this]; ring)
  refine ⟨fuel + 1, st', ?_, hamt⟩
  rw [simulate_step auction fuel _ _ rfl (by simp) hpass]
  simp only [hkeep]; exact hsim

/-- C10 (amended) at the "three bidders, tied, winner is earliest bidder" test:
fifty increments of 20 lead from 1000 to the shared maximum 2000. -/
theorem C10_witness :
    Returns { id := "testAuction", minPriceCents := 2000 }
      [{ GUID := "EarlyBird", BidStrategy := { MaxBidCents := 2000, BidIncrementCents := 20 },
         InitialBid := { CreatedAt := 1, AmountCents := 1000 } },
       { GUID := "HungryBird", BidStrategy := { MaxBidCents := 2000, BidIncrementCents := 20 },
         InitialBid := { CreatedAt := 2, AmountCents := 1000 } },
       { GUID := "SleepyBird", BidStrategy := { MaxBidCents := 2000, BidIncrementCents := 20 },
         InitialBid := { CreatedAt := 3, AmountCents := 1000 } }]
      ⟨"EarlyBird", 2000, none⟩ :=
  C10_three_tied_bidders_earliest_wins { id := "testAuction", minPriceCents := 2000 } _
    { GUID := "EarlyBird", BidStrategy := { MaxBidCents := 2000, BidIncrementCents := 20 },
      InitialBid := { CreatedAt := 1, AmountCents := 1000 } }
    { GUID := "HungryBird", BidStrategy := { MaxBidCents := 2000, BidIncrementCents := 20 },
      InitialBid := { CreatedAt := 2, AmountCents := 1000 } }
    { GUID := "SleepyBird", BidStrategy := { MaxBidCents := 2000, BidIncrementCents := 20 },
      InitialBid := { CreatedAt := 3, AmountCents := 1000 } } 50
    (List.Perm.refl _) (by decide) (by decide) (by decide) (by decide) (by decide) (by decide)
    (by decide) (by decide) (by decide) (by decide) (by decide) (by decide) (by decide)
    (by decide) (by decide) (by decide) (by decide)

/-- C6 (fails on the code): with minimum 100, the single bidder "A" (maximum 2000,
increment 500, initial bid 0) never becomes the highest bidder, because
`getInitialBids` starts its running maximum at 0 and compares strictly; the
lone-bidder branch then raises the bid stored under the empty GUID, and the call
succeeds with the empty string as winner. -/
theorem C6_success_with_empty_winner :
    ResolveAuction 3 { id := "testAuction", minPriceCents := 100 }
        [{ GUID := "A", BidStrategy := { MaxBidCents := 2000, BidIncrementCents := 500 },
           InitialBid := { CreatedAt := 1, AmountCents := 0 } }]
      = some { winner := "", amount := 500, err := none } ∧
    (getInitialBids
        [{ GUID := "A", BidStrategy := { MaxBidCents := 2000, BidIncrementCents := 500 },
           InitialBid := { CreatedAt := 1, AmountCents := 0 } }]).2.1 = "" := by
  decide

/-! ## Claims about `bidder.go` -/

theorem compare_nonpos_iff (a b : Bidder) :
    compareBiddersByBidTime a b ≤ 0 ↔ NotLater a b := by
  unfold compareBiddersByBidTime NotLater
  split_ifs <;> simp_all
  omega

/-- The check of `slices.IsSortedFunc` succeeds exactly on the lists in which no
bidder bid later than its successor. -/
theorem isSorted_iff_chain : ∀ (l : List Bidder),
    isSortedByBidTime l = true ↔ l.Chain' NotLater
  | [] => by simp [isSortedByBidTime]
  | [_] => by simp [isSortedByBidTime]
  | a :: b :: l => by
    have ih := isSorted_iff_chain (b :: l)
    simp only [isSortedByBidTime, compare_neg_iff, Bool.and_eq_true, Bool.not_eq_true',
      decide_eq_false_iff_not, List.chain'_cons, ih, NotLater, not_lt]

/-- C11: `removeBiddersUnderMin` returns exactly the bidders with
`MaxBidCents ≥ m`, as a subsequence of the input in the original order; a bidder
whose maximum equals `m` is kept and every bidder whose maximum is below `m` is
dropped. -/
theorem C11_removeBiddersUnderMin_keeps_max_at_least_min (bidders : List Bidder) (m : Int) :
    removeBiddersUnderMin bidders m =
        bidders.filter (fun b => decide (m ≤ b.BidStrategy.MaxBidCents)) ∧
    (removeBiddersUnderMin bidders m).Sublist bidders ∧
    (∀ b ∈ bidders, b.BidStrategy.MaxBidCents = m → b ∈ removeBiddersUnderMin bidders m) ∧
    (∀ b, b.BidStrategy.MaxBidCents < m → b ∉ removeBiddersUnderMin bidders m) := by
  have heq : removeBiddersUnderMin bidders m =
      bidders.filter (fun b => decide (m ≤ b.BidStrategy.MaxBidCents)) := by
    unfold removeBiddersUnderMin deleteFunc
    congr 1; funext b
    by_cases h : b.BidStrategy.MaxBidCents < m
    · simp [h]
    · simp [h]; omega
  refine ⟨heq, ?_, ?_, ?_⟩
  · rw [heq]; exact List.filter_sublist _
  · intro b hb hm
    rw [heq, List.mem_filter]
    exact ⟨hb, by simp [hm]⟩
  · intro b hlt hb
    rw [heq, List.mem_filter] at hb
    have := hb.2
    simp only [decide_eq_true_eq] at this
    omega

/-- C11 at the input of `TestRemoveBiddersUnderMin`, threshold 2990, and at a
bidder whose maximum equals the threshold 2000. -/
theorem C11_witness :
    removeBiddersUnderMin
        [{ GUID := "before_a", BidStrategy := { MaxBidCents := 1499, BidIncrementCents := 500 },
           InitialBid := { CreatedAt := 2000, AmountCents := 1000 } },
         { GUID := "a", BidStrategy := { MaxBidCents := 2000, BidIncrementCents := 500 },
           InitialBid := { CreatedAt := 2007, AmountCents := 1030 } },
         { GUID := "b", BidStrategy := { MaxBidCents := 6000, BidIncrementCents := 500 },
           InitialBid := { CreatedAt := 2006, AmountCents := 5000 } },
         { GUID := "c", BidStrategy := { MaxBidCents := 9000000, BidIncrementCents := 500 },
           InitialBid := { CreatedAt := 2001, AmountCents := 833100 } }] 2990 =
      [{ GUID := "b", BidStrategy := { MaxBidCents := 6000, BidIncrementCents := 500 },
         InitialBid := { CreatedAt := 2006, AmountCents := 5000 } },
       { GUID := "c", BidStrategy := { MaxBidCents := 9000000, BidIncrementCents := 500 },
         InitialBid := { CreatedAt := 2001, AmountCents := 833100 } }] ∧
    ({ GUID := "a", BidStrategy := { MaxBidCents := 2000, BidIncrementCents := 500 },
       InitialBid := { CreatedAt := 2007, AmountCents := 1030 } } : Bidder) ∈
      removeBiddersUnderMin
        [{ GUID := "before_a", BidStrategy := { MaxBidCents := 1499, BidIncrementCents := 500 },
           InitialBid := { CreatedAt := 2000, AmountCents := 1000 } },
         { GUID := "a", BidStrategy := { MaxBidCents := 2000, BidIncrementCents := 500 },
           InitialBid := { CreatedAt := 2007, AmountCents := 1030 } }] 2000 ∧
    ({ GUID := "before_a", BidStrategy := { MaxBidCents := 1499, BidIncrementCents := 500 },
       InitialBid := { CreatedAt := 2000, AmountCents := 1000 } } : Bidder) ∉
      removeBiddersUnderMin
        [{ GUID := "before_a", BidStrategy := { MaxBidCents := 1499, BidIncrementCents := 500 },
           InitialBid := { CreatedAt := 2000, AmountCents := 1000 } },
         { GUID := "a", BidStrategy := { MaxBidCents := 2000, BidIncrementCents := 500 },
           InitialBid := { CreatedAt := 2007, AmountCents := 1030 } }] 2000 :=
  ⟨by decide,
   (C11_removeBiddersUnderMin_keeps_max_at_least_min _ 2000).2.2.1 _ (by decide) (by decide),
   (C11_removeBiddersUnderMin_keeps_max_at_least_min _ 2000).2.2.2 _ (by decide)⟩

/-- C12: `sortBiddersByEarliest` yields a permutation of its input in which every
adjacent pair compares `≤ 0` under `compareBiddersByBidTime`, and the bidders
that share a timestamp `t` appear in the order they had in the input. -/
theorem C12_sort_is_stable_ascending_permutation (bidders : List Bidder) :
    (sortBiddersByEarliest bidders).Perm bidders ∧
    (sortBiddersByEarliest bidders).Chain' (fun a b => compareBiddersByBidTime a b ≤ 0) ∧
    ∀ t : Int, (sortBiddersByEarliest bidders).filter (fun b => decide (b.InitialBid.CreatedAt = t)) =
      bidders.filter (fun b => decide (b.InitialBid.CreatedAt = t)) := by
  refine ⟨sort_perm bidders, ?_, ?_⟩
  · have h : (sortBiddersByEarliest bidders).Chain' NotLater :=
      List.chain'_iff_pairwise.2 (sort_sorted bidders)
    exact h.imp (fun a b hab => (compare_nonpos_iff a b).2 hab)
  · intro t
    have hpair : (bidders.filter (fun b => decide (b.InitialBid.CreatedAt = t))).Pairwise
        NotLater := by
      rw [List.pairwise_iff_forall_sublist]
      intro a b hab
      have ha := hab.subset (List.mem_cons_self a [b])
      have hb := hab.subset (List.mem_cons_of_mem a (List.mem_singleton_self b))
      simp only [List.mem_filter, decide_eq_true_eq] at ha hb
      unfold NotLater; omega
    have hsub : (bidders.filter (fun b => decide (b.InitialBid.CreatedAt = t))).Sublist
        (sortBiddersByEarliest bidders) := by
      rw [sort_eq_insertionSort]
      exact List.sublist_insertionSort hpair (List.filter_sublist _)
    have hsub' := hsub.filter (fun b => decide (b.InitialBid.CreatedAt = t))
    simp only [List.filter_filter, Bool.and_self] at hsub'
    have hlen := ((sort_perm bidders).filter
      (fun b => decide (b.InitialBid.CreatedAt = t))).length_eq
    exact (hsub'.eq_of_length hlen.symm).symm

/-- C16: filtering twice with the same threshold gives the same sequence as
filtering once. -/
theorem C16_removeBiddersUnderMin_idempotent (bidders : List Bidder) (m : Int) :
    removeBiddersUnderMin (removeBiddersUnderMin bidders m) m = removeBiddersUnderMin bidders m := by
  rw [removeBiddersUnderMin_eq, removeBiddersUnderMin_eq, List.filter_filter]
  simp

/-- C17: the slice `removeBiddersUnderMin (sortBiddersByEarliest b) m` is ordered
by initial-bid time, it passes the `slices.IsSortedFunc` check, and both
aggregation helpers return without error on it. -/
theorem C17_pool_stays_sorted (bidders : List Bidder) (m : Int) :
    (removeBiddersUnderMin (sortBiddersByEarliest bidders) m).Chain' NotLater ∧
    isSortedByBidTime (removeBiddersUnderMin (sortBiddersByEarliest bidders) m) = true ∧
    (getInitialBids (removeBiddersUnderMin (sortBiddersByEarliest bidders) m)).2.2 = none ∧
    (getEarliestBidderAtMaxValue (removeBiddersUnderMin (sortBiddersByEarliest bidders) m)).2 =
      none := by
  have h := pool_isSorted bidders m
  refine ⟨(isSorted_iff_chain _).1 h, h, ?_, ?_⟩
  · simp [getInitialBids, h]
  · simp [getEarliestBidderAtMaxValue, h]

/-- C13 (fails on the code): on the one-element list holding bidder "High" with
initial bid amount 0 (the zero `InitialBid` of the `highBidder` test fixture), and
on two bidders that both start at 0, `getInitialBids` returns no error and the
empty string as `highestBidder`, not the GUID of the first bidder at the maximum
initial amount: its running maximum starts at 0 and is compared with `<`. -/
theorem C13_highest_bidder_empty_at_zero :
    (getInitialBids
        [{ GUID := "High", BidStrategy := { MaxBidCents := 30000, BidIncrementCents := 500 },
           InitialBid := { CreatedAt := 1, AmountCents := 0 } }]).2 = ("", none) ∧
    (getInitialBids
        [{ GUID := "High", BidStrategy := { MaxBidCents := 30000, BidIncrementCents := 500 },
           InitialBid := { CreatedAt := 1, AmountCents := 0 } },
         { GUID := "Low", BidStrategy := { MaxBidCents := 2000, BidIncrementCents := 500 },
           InitialBid := { CreatedAt := 2, AmountCents := 0 } }]).2 = ("", none) := by
  decide

/-- A list is ordered by bid time exactly when no bidder is directly followed by
one that bid strictly earlier. -/
theorem chain_iff_no_inversion : ∀ (l : List Bidder),
    l.Chain' NotLater ↔ ∀ l₁ a b l₂, l = l₁ ++ a :: b :: l₂ → NotLater a b
  | [] => by simp
  | [x] => by
    simp only [List.chain'_singleton, true_iff]
    intro l₁ a b l₂ h
    have := congrArg List.length h
    simp at this
    omega
  | x :: y :: l => by
    rw [List.chain'_cons, chain_iff_no_inversion (y :: l)]
    constructor
    · rintro ⟨hxy, h⟩ l₁ a b l₂ heq
      cases l₁ with
      | nil =>
        simp only [List.nil_append, List.cons.injEq] at heq
        obtain ⟨rfl, rfl, -⟩ := heq
        exact hxy
      | cons c l₁ =>
        simp only [List.cons_append, List.cons.injEq] at heq
        exact h l₁ a b l₂ heq.2
    · intro h
      exact ⟨h [] x y l rfl, fun l₁ a b l₂ heq => h (x :: l₁) a b l₂ (by simp [heq])⟩

/-- C14: on a bidder list ordered by initial-bid time,
`getEarliestBidderAtMaxValue` returns no error, its mapping has a key `v` exactly
when some bidder has `MaxBidCents = v`, and each key is mapped to the GUID of the
first bidder in list order with that maximum. -/
theorem C14_earliest_bidder_at_max_value (bidders : List Bidder)
    (hsorted : bidders.Chain' NotLater) :
    (getEarliestBidderAtMaxValue bidders).2 = none ∧
    (∀ v : Int, ((getEarliestBidderAtMaxValue bidders).1 v).isSome ↔
      ∃ b ∈ bidders, b.BidStrategy.MaxBidCents = v) ∧
    ∀ v : Int, (getEarliestBidderAtMaxValue bidders).1 v =
      (bidders.find? (fun b => decide (b.BidStrategy.MaxBidCents = v))).map (·.GUID) := by
  have h := (isSorted_iff_chain bidders).2 hsorted
  have hmap : ∀ v : Int, (getEarliestBidderAtMaxValue bidders).1 v =
      (bidders.find? (fun b => decide (b.BidStrategy.MaxBidCents = v))).map (·.GUID) := by
    intro v
    simp [getEarliestBidderAtMaxValue, h, earliestLoop_spec, emptyMap]
  refine ⟨by simp [getEarliestBidderAtMaxValue, h], ?_, hmap⟩
  intro v
  rw [hmap v]
  simp [List.find?_isSome]

/-- C14 at two bidders that share the maximum 3000: the earlier one is recorded. -/
theorem C14_witness :
    (getEarliestBidderAtMaxValue
        [{ GUID := "EarlyWinner", BidStrategy := { MaxBidCents := 3000, BidIncrementCents := 500 },
           InitialBid := { CreatedAt := 1, AmountCents := 1000 } },
         { GUID := "LateWinner", BidStrategy := { MaxBidCents := 3000, BidIncrementCents := 500 },
           InitialBid := { CreatedAt := 2, AmountCents := 500 } }]).1 3000 =
      some "EarlyWinner" :=
  ((C14_earliest_bidder_at_max_value _ (by simp [NotLater])).2.2 3000).trans (by decide)

/-- C15: each of `getInitialBids` and `getEarliestBidderAtMaxValue` returns an
error exactly when the list is not ordered by initial-bid time, that is when some
bidder is followed directly by a bidder with a strictly earlier time; with the
error they return the empty mapping, and `getInitialBids` the empty GUID. -/
theorem C15_unsorted_input_error (bidders : List Bidder) :
    ((getInitialBids bidders).2.2 = some AuctionError.initialBidsNotSorted ↔
      ¬ bidders.Chain' NotLater) ∧
    ((getInitialBids bidders).2.2 = none ↔ bidders.Chain' NotLater) ∧
    ((getEarliestBidderAtMaxValue bidders).2 = some AuctionError.maxBidsNotSorted ↔
      ¬ bidders.Chain' NotLater) ∧
    ((getEarliestBidderAtMaxValue bidders).2 = none ↔ bidders.Chain' NotLater) ∧
    (¬ bidders.Chain' NotLater ↔ ∃ l₁ a b l₂, bidders = l₁ ++ a :: b :: l₂ ∧
      b.InitialBid.CreatedAt < a.InitialBid.CreatedAt) ∧
    (¬ bidders.Chain' NotLater →
      (getInitialBids bidders).1 = emptyMap ∧ (getInitialBids bidders).2.1 = "" ∧
      (getEarliestBidderAtMaxValue bidders).1 = emptyMap) := by
  have hiff := isSorted_iff_chain bidders
  have hsplit : ¬ bidders.Chain' NotLater ↔ ∃ l₁ a b l₂, bidders = l₁ ++ a :: b :: l₂ ∧
      b.InitialBid.CreatedAt < a.InitialBid.CreatedAt := by
    rw [chain_iff_no_inversion]
    constructor
    · intro h
      by_contra hcon
      apply h
      intro l₁ a b l₂ heq
      by_contra hab
      exact hcon ⟨l₁, a, b, l₂, heq, by unfold NotLater at hab; omega⟩
    · rintro ⟨l₁, a, b, l₂, heq, hlt⟩ h
      have := h l₁ a b l₂ heq
      unfold NotLater at this; omega
  by_cases hs : isSortedByBidTime bidders = true
  · have hc := hiff.1 hs
    refine ⟨?_, ?_, ?_, ?_, hsplit, fun h => absurd hc h⟩ <;>
      simp [getInitialBids, getEarliestBidderAtMaxValue, hs, hc]
  · have hc : ¬ bidders.Chain' NotLater := fun h => hs (hiff.2 h)
    simp only [Bool.not_eq_true] at hs
    refine ⟨?_, ?_, ?_, ?_, hsplit, ?_⟩ <;>
      simp [getInitialBids, getEarliestBidderAtMaxValue, hs, hc]

/-- C15 at the "error" input of `TestGetInitialBids`: "a" (2007) comes before
"b" (2006). -/
theorem C15_witness :
    (getInitialBids
        [{ GUID := "a", BidStrategy := { MaxBidCents := 30000, BidIncrementCents := 500 },
           InitialBid := { CreatedAt := 2007, AmountCents := 1030 } },
         { GUID := "b", BidStrategy := { MaxBidCents := 30000, BidIncrementCents := 500 },
           InitialBid := { CreatedAt := 2006, AmountCents := 5000 } }]).1 = emptyMap ∧
    (getInitialBids
        [{ GUID := "a", BidStrategy := { MaxBidCents := 30000, BidIncrementCents := 500 },
           InitialBid := { CreatedAt := 2007, AmountCents := 1030 } },
         { GUID := "b", BidStrategy := { MaxBidCents := 30000, BidIncrementCents := 500 },
           InitialBid := { CreatedAt := 2006, AmountCents := 5000 } }]).2.1 = "" ∧
    (getEarliestBidderAtMaxValue
        [{ GUID := "a", BidStrategy := { MaxBidCents := 30000, BidIncrementCents := 500 },
           InitialBid := { CreatedAt := 2007, AmountCents := 1030 } },
         { GUID := "b", BidStrategy := { MaxBidCents := 30000, BidIncrementCents := 500 },
           InitialBid := { CreatedAt := 2006, AmountCents := 5000 } }]).1 = emptyMap :=
  (C15_unsorted_input_error _).2.2.2.2.2 (by simp [NotLater])

/-! ## Claims about the simulation loop -/

/-- C18 (as stated, fails on the code).  With minimum 100, "A" (maximum 2000,
increment 500, initial bid 1000) and the later "B" (maximum 1500, increment 500,
initial bid 500): in the first pass "B" raises to 1500, its own maximum, and
becomes the highest bidder; the elimination that follows removes "B" from the
pool. -/
theorem C18_counterexample :
    ∃ st, stateAfterPass { id := "testAuction", minPriceCents := 100 } 0
        (startState { id := "testAuction", minPriceCents := 100 }
          [{ GUID := "A", BidStrategy := { MaxBidCents := 2000, BidIncrementCents := 500 },
             InitialBid := { CreatedAt := 1, AmountCents := 1000 } },
           { GUID := "B", BidStrategy := { MaxBidCents := 1500, BidIncrementCents := 500 },
             InitialBid := { CreatedAt := 2, AmountCents := 500 } }]) = some st ∧
      st.highestBidder = "B" ∧
      ({ GUID := "B", BidStrategy := { MaxBidCents := 1500, BidIncrementCents := 500 },
         InitialBid := { CreatedAt := 2, AmountCents := 500 } } : Bidder) ∈ st.bidders ∧
      ({ GUID := "B", BidStrategy := { MaxBidCents := 1500, BidIncrementCents := 500 },
         InitialBid := { CreatedAt := 2, AmountCents := 500 } } : Bidder) ∉
        (eliminate st).bidders :=
  ⟨_, rfl, by decide, by decide, by decide⟩

/-- C18 (amended): in every elimination step, a bidder of the pool that is
recorded as the highest bidder is removed when its recorded bid has reached its
`MaxBidCents`; when the sum of its increment and its recorded bid does not
overflow, it is kept exactly when its bid is below its maximum and that sum does
not exceed its maximum. -/
theorem C18_highest_bidder_kept_iff_can_raise (st : SimState) (b : Bidder)
    (hb : b ∈ st.bidders) (hh : b.GUID = st.highestBidder) :
    (b.BidStrategy.MaxBidCents ≤ bidOf st.bids st.highestBidder → b ∉ (eliminate st).bidders) ∧
    (InInt64 (b.BidStrategy.BidIncrementCents + bidOf st.bids st.highestBidder) →
      (b ∈ (eliminate st).bidders ↔
        bidOf st.bids st.highestBidder < b.BidStrategy.MaxBidCents ∧
        b.BidStrategy.BidIncrementCents + bidOf st.bids st.highestBidder ≤
          b.BidStrategy.MaxBidCents)) := by
  constructor
  · intro hle
    simp [eliminate, deleteFunc, eliminated, hle]
  · intro hr
    simp only [eliminate, deleteFunc, eliminated, List.mem_filter, hb, true_and, hh,
      wrapInt64_eq hr, Bool.not_eq_true', Bool.or_eq_false_iff, decide_eq_false_iff_not, not_le,
      gt_iff_lt, not_lt]

/-- C18 (amended) at the state after the second pass of the "happy path" test:
"High" leads at 2500, far below its maximum 30000, and stays in the pool. -/
theorem C18_witness :
    ({ GUID := "High", BidStrategy := { MaxBidCents := 30000, BidIncrementCents := 500 },
       InitialBid := { CreatedAt := 2, AmountCents := 500 } } : Bidder) ∈
      (eliminate
        ⟨[{ GUID := "Low", BidStrategy := { MaxBidCents := 2000, BidIncrementCents := 500 },
            InitialBid := { CreatedAt := 1, AmountCents := 1000 } },
          { GUID := "High", BidStrategy := { MaxBidCents := 30000, BidIncrementCents := 500 },
            InitialBid := { CreatedAt := 2, AmountCents := 500 } }],
         setKey (setKey emptyMap "Low" 2000) "High" 2500, "High", true⟩).bidders :=
  ((C18_highest_bidder_kept_iff_can_raise
      ⟨[{ GUID := "Low", BidStrategy := { MaxBidCents := 2000, BidIncrementCents := 500 },
          InitialBid := { CreatedAt := 1, AmountCents := 1000 } },
        { GUID := "High", BidStrategy := { MaxBidCents := 30000, BidIncrementCents := 500 },
          InitialBid := { CreatedAt := 2, AmountCents := 500 } }],
       setKey (setKey emptyMap "Low" 2000) "High" 2500, "High", true⟩
      { GUID := "High", BidStrategy := { MaxBidCents := 30000, BidIncrementCents := 500 },
        InitialBid := { CreatedAt := 2, AmountCents := 500 } }
      (by decide) rfl).2 (by decide)).2 (by decide)

/-! ## Invariants of the simulation -/

theorem wrapInt64_inInt64 (x : Int) : InInt64 (wrapInt64 x) := by
  unfold InInt64 wrapInt64 int64Half int64Size
  omega

/-- A key that belongs to no bidder of the list is left alone by the loop of
`getInitialBids`. -/
theorem initialBidsLoop_other : ∀ (l : List Bidder) (m : BidsMap) (hb : Int) (h k : String),
    (∀ b ∈ l, b.GUID ≠ k) → (getInitialBidsLoop l m hb h).1 k = m k
  | [], _, _, _, _, _ => rfl
  | b :: l, m, hb, h, k, hk => by
    have hbk : k ≠ b.GUID := fun e => hk b (List.mem_cons_self _ _) e.symm
    have hl : ∀ c ∈ l, c.GUID ≠ k := fun c hc => hk c (List.mem_cons_of_mem _ hc)
    rw [getInitialBidsLoop]
    split_ifs <;> rw [initialBidsLoop_other l _ _ _ k hl] <;> simp [setKey, hbk]

/-- Every bidder of the list gets a key. -/
theorem initialBidsLoop_key : ∀ (l : List Bidder) (m : BidsMap) (hb : Int) (h : String),
    ∀ b ∈ l, ((getInitialBidsLoop l m hb h).1 b.GUID).isSome
  | [], _, _, _, b, hmem => by cases hmem
  | c :: l, m, hb, h, b, hmem => by
    rw [getInitialBidsLoop]
    by_cases hin : b ∈ l
    · split_ifs <;> exact initialBidsLoop_key l _ _ _ b hin
    · have hbc : b = c := by
        rcases List.mem_cons.1 hmem with e | e
        · exact e
        · exact absurd e hin
      subst hbc
      by_cases hg : ∃ d ∈ l, d.GUID = b.GUID
      · obtain ⟨d, hd, hdg⟩ := hg
        rw [← hdg]
        split_ifs <;> exact initialBidsLoop_key l _ _ _ d hd
      · have hl : ∀ d ∈ l, d.GUID ≠ b.GUID := fun d hd e => hg ⟨d, hd, e⟩
        split_ifs <;> rw [initialBidsLoop_other l _ _ _ _ hl] <;> simp [setKey]

/-- With distinct GUIDs every bidder's key holds its own initial amount. -/
theorem initialBidsLoop_value : ∀ (l : List Bidder) (m : BidsMap) (hb : Int) (h : String),
    (l.map (·.GUID)).Nodup → ∀ b ∈ l,
      (getInitialBidsLoop l m hb h).1 b.GUID = some b.InitialBid.AmountCents
  | [], _, _, _, _, b, hmem => by cases hmem
  | c :: l, m, hb, h, hnd, b, hmem => by
    rw [List.map_cons, List.nodup_cons] at hnd
    rw [getInitialBidsLoop]
    rcases List.mem_cons.1 hmem with e | e
    · subst e
      have hl : ∀ d ∈ l, d.GUID ≠ b.GUID := fun d hd e =>
        hnd.1 (List.mem_map.2 ⟨d, hd, e⟩)
      split_ifs <;> rw [initialBidsLoop_other l _ _ _ _ hl] <;> simp [setKey]
    · split_ifs <;> exact initialBidsLoop_value l _ _ _ hnd.2 b e

/-- The highest bidder found by the loop is the one it started with or a bidder
of the list. -/
theorem initialBidsLoop_highest : ∀ (l : List Bidder) (m : BidsMap) (hb : Int) (h : String),
    (getInitialBidsLoop l m hb h).2 = h ∨ ∃ b ∈ l, (getInitialBidsLoop l m hb h).2 = b.GUID
  | [], _, _, _ => Or.inl rfl
  | c :: l, m, hb, h => by
    rw [getInitialBidsLoop]
    split_ifs
    · rcases initialBidsLoop_highest l (setKey m c.GUID c.InitialBid.AmountCents)
        c.InitialBid.AmountCents c.GUID with e | ⟨b, hbl, e⟩
      · exact Or.inr ⟨c, List.mem_cons_self _ _, e⟩
      · exact Or.inr ⟨b, List.mem_cons_of_mem _ hbl, e⟩
    · rcases initialBidsLoop_highest l (setKey m c.GUID c.InitialBid.AmountCents) hb h with
        e | ⟨b, hbl, e⟩
      · exact Or.inl e
      · exact Or.inr ⟨b, List.mem_cons_of_mem _ hbl, e⟩

/-- When no initial amount exceeds the running maximum, the highest bidder is
left as it was. -/
theorem initialBidsLoop_highest_unchanged : ∀ (l : List Bidder) (m : BidsMap) (hb : Int)
    (h : String), (∀ b ∈ l, b.InitialBid.AmountCents ≤ hb) → (getInitialBidsLoop l m hb h).2 = h
  | [], _, _, _, _ => rfl
  | c :: l, m, hb, h, hall => by
    have hc : ¬ hb < c.InitialBid.AmountCents := by
      have := hall c (List.mem_cons_self _ _); omega
    rw [getInitialBidsLoop]
    simp only [hc, if_false]
    exact initialBidsLoop_highest_unchanged l _ hb h (fun b hbl => hall b (List.mem_cons_of_mem _ hbl))

/-- When some initial amount exceeds the running maximum, the highest bidder is a
bidder of the list. -/
theorem initialBidsLoop_highest_mem : ∀ (l : List Bidder) (m : BidsMap) (hb : Int) (h : String),
    (∃ b ∈ l, hb < b.InitialBid.AmountCents) → ∃ b ∈ l, (getInitialBidsLoop l m hb h).2 = b.GUID
  | [], _, _, _, hex => by obtain ⟨b, hbl, -⟩ := hex; cases hbl
  | c :: l, m, hb, h, hex => by
    rw [getInitialBidsLoop]
    by_cases hc : hb < c.InitialBid.AmountCents
    · rw [if_pos hc]
      rcases initialBidsLoop_highest l (setKey m c.GUID c.InitialBid.AmountCents)
        c.InitialBid.AmountCents c.GUID with e | ⟨b, hbl, e⟩
      · exact ⟨c, List.mem_cons_self _ _, e⟩
      · exact ⟨b, List.mem_cons_of_mem _ hbl, e⟩
    · rw [if_neg hc]
      obtain ⟨b, hbl, hlt⟩ := hex
      have hbl' : b ∈ l := by
        rcases List.mem_cons.1 hbl with e | e
        · subst e; exact absurd hlt hc
        · exact e
      obtain ⟨d, hd, e⟩ := initialBidsLoop_highest_mem l
        (setKey m c.GUID c.InitialBid.AmountCents) hb h ⟨b, hbl', hlt⟩
      exact ⟨d, List.mem_cons_of_mem _ hd, e⟩

/-- A property kept by every step of the pass is kept by the pass. -/
theorem runPass_preserves (auction : Auction) (P : SimState → Prop)
    (hstep : ∀ st b st', P st → passBody auction st b = .ok st' → P st') :
    ∀ (l : List Bidder) (st st' : SimState), P st → runPass auction l st = .ok st' → P st'
  | [], st, st', h, hrun => by
    simp only [runPass, Except.ok.injEq] at hrun
    exact hrun ▸ h
  | b :: l, st, st', h, hrun => by
    rw [runPass] at hrun
    cases hb : passBody auction st b with
    | error e => rw [hb] at hrun; cases hrun
    | ok st₁ =>
      rw [hb] at hrun
      exact runPass_preserves auction P hstep l st₁ st' (hstep st b st₁ h hb) hrun

/-- A property kept by every step of the pass, by the elimination and by the
clearing of the loop flag holds in the state in which the loop exits. -/
theorem simulate_preserves (auction : Auction) (P : SimState → Prop)
    (hstep : ∀ st b st', P st → passBody auction st b = .ok st' → P st')
    (hdel : ∀ st, P st → P (eliminate st))
    (hoff : ∀ st, P st → P { st with eligibleBidders := false }) :
    ∀ (fuel : Nat) (st st' : SimState), P st → simulate auction fuel st = some (.ok st') → P st'
  | 0, _, _, _, hsim => by simp [simulate] at hsim
  | fuel + 1, st, st', h, hsim => by
    rw [simulate] at hsim
    split_ifs at hsim with h1 h2
    · simp only [Option.some.injEq, Except.ok.injEq] at hsim
      exact hsim ▸ h
    · exact simulate_preserves auction P hstep hdel hoff fuel _ st' (hoff st h) hsim
    · cases hrun : runPass auction st.bidders st with
      | error e => rw [hrun] at hsim; cases hsim
      | ok st₁ =>
        rw [hrun] at hsim
        exact simulate_preserves auction P hstep hdel hoff fuel _ st'
          (hdel st₁ (runPass_preserves auction P hstep _ st st₁ h hrun)) hsim

theorem passOf_preserves (auction : Auction) (P : SimState → Prop)
    (hstep : ∀ st b st', P st → passBody auction st b = .ok st' → P st')
    (st st' : SimState) (h : P st) (hp : passOf auction st = some st') : P st' := by
  unfold passOf at hp
  split_ifs at hp
  cases hrun : runPass auction st.bidders st with
  | error e => rw [hrun] at hp; cases hp
  | ok st₁ =>
    rw [hrun] at hp
    simp only [Option.some.injEq] at hp
    exact hp ▸ runPass_preserves auction P hstep _ st st₁ h hrun

/-- A property kept by every step of the pass and by the elimination holds at the
end of every pass. -/
theorem stateAfterPass_preserves (auction : Auction) (P : SimState → Prop)
    (hstep : ∀ st b st', P st → passBody auction st b = .ok st' → P st')
    (hdel : ∀ st, P st → P (eliminate st)) :
    ∀ (n : Nat) (st st' : SimState), P st → stateAfterPass auction n st = some st' → P st'
  | 0, st, st', h, hp => passOf_preserves auction P hstep st st' h hp
  | n + 1, st, st', h, hp => by
    rw [stateAfterPass] at hp
    cases hq : passOf auction st with
    | none => rw [hq] at hp; cases hp
    | some st₁ =>
      rw [hq] at hp
      exact stateAfterPass_preserves auction P hstep hdel n _ st'
        (hdel st₁ (passOf_preserves auction P hstep st st₁ h hq)) hp

/-- The pass never touches the pool. -/
theorem passBody_bidders (auction : Auction) (st st' : SimState) (b : Bidder)
    (h : passBody auction st b = .ok st') : st'.bidders = st.bidders := by
  unfold passBody at h
  split at h
  · split_ifs at h <;> cases h <;> rfl
  · split_ifs at h
    · cases h; rfl
    · split at h
      · cases h
      · simp only at h
        split_ifs at h <;> cases h <;> rfl

/-- Once the highest bidder has an entry in the bid-amount mapping it keeps one. -/
theorem passBody_keeps_key (auction : Auction) (st st' : SimState) (b : Bidder)
    (hkey : (st.bids st.highestBidder).isSome) (h : passBody auction st b = .ok st') :
    (st'.bids st'.highestBidder).isSome := by
  unfold passBody at h
  split at h
  · split_ifs at h <;> cases h
    · simp [setKey]
    · exact hkey
  · split_ifs at h
    · cases h; exact hkey
    · split at h
      · cases h
      · simp only at h
        split_ifs at h <;> cases h
        · simp [setKey]
        · exact hkey

/-- The error of the pass needs a pool of two or more and a highest bidder
without an entry in the bid-amount mapping. -/
theorem passBody_ok_of_key (auction : Auction) (st : SimState) (b : Bidder)
    (hne : st.bidders ≠ [])
    (h : st.bidders.length ≤ 1 ∨ (st.bids st.highestBidder).isSome) :
    ∃ st', passBody auction st b = .ok st' := by
  unfold passBody
  split
  · split_ifs <;> exact ⟨_, rfl⟩
  · next hns =>
    split_ifs
    · exact ⟨_, rfl⟩
    · split
      · next hnone =>
        rcases h with h | h
        · exfalso
          match hl : st.bidders, h with
          | [], _ => exact hne hl
          | [x], _ => exact hns x hl
        · rw [hnone] at h; cases h
      · simp only
        split_ifs <;> exact ⟨_, rfl⟩

theorem runPass_ok_of_key (auction : Auction) : ∀ (l : List Bidder) (st : SimState),
    st.bidders ≠ [] → (st.bidders.length ≤ 1 ∨ (st.bids st.highestBidder).isSome) →
    ∃ st', runPass auction l st = .ok st' ∧ st'.bidders = st.bidders ∧
      (st'.bidders.length ≤ 1 ∨ (st'.bids st'.highestBidder).isSome)
  | [], st, _, h => ⟨st, rfl, rfl, h⟩
  | b :: l, st, hne, h => by
    obtain ⟨st₁, h₁⟩ := passBody_ok_of_key auction st b hne h
    have hb₁ := passBody_bidders auction st st₁ b h₁
    have hk₁ : st₁.bidders.length ≤ 1 ∨ (st₁.bids st₁.highestBidder).isSome := by
      rcases h with h | h
      · left; rw [hb₁]; exact h
      · right; exact passBody_keeps_key auction st st₁ b h h₁
    obtain ⟨st₂, h₂, hb₂, hk₂⟩ := runPass_ok_of_key auction l st₁ (by rw [hb₁]; exact hne) hk₁
    exact ⟨st₂, by rw [runPass, h₁]; exact h₂, by rw [hb₂, hb₁], hk₂⟩

/-- With at most one bidder in the pool, or with an entry for the highest bidder,
the loop never returns the "missing highest bidder bid" error. -/
theorem simulate_ok_of_key (auction : Auction) : ∀ (fuel : Nat) (st : SimState) (e : AuctionError),
    (st.bidders.length ≤ 1 ∨ (st.bids st.highestBidder).isSome) →
    simulate auction fuel st ≠ some (.error e)
  | 0, _, _, _ => by simp [simulate]
  | fuel + 1, st, e, h => by
    rw [simulate]
    split_ifs with h1 h2
    · simp
    · exact simulate_ok_of_key auction fuel _ e h
    · have hne : st.bidders ≠ [] := fun hnil => h2 (by rw [hnil]; rfl)
      obtain ⟨st₁, hrun, hb, hk⟩ := runPass_ok_of_key auction st.bidders st hne h
      rw [hrun]
      refine simulate_ok_of_key auction fuel _ e ?_
      rcases hk with hk | hk
      · left
        exact le_trans (List.length_filter_le _ _) hk
      · right; exact hk

/-- The bidders of the working pool are the eligible bidders of the input. -/
theorem mem_pool {auction : Auction} {bidders : List Bidder} {b : Bidder} :
    b ∈ removeBiddersUnderMin (sortBiddersByEarliest bidders) auction.minPriceCents ↔
      b ∈ bidders ∧ Eligible auction b := by
  rw [mem_removeBiddersUnderMin, mem_sort]; rfl

theorem pool_perm (auction : Auction) (bidders : List Bidder) :
    (removeBiddersUnderMin (sortBiddersByEarliest bidders) auction.minPriceCents).Perm
      (bidders.filter (fun b => decide (Eligible auction b))) := by
  rw [removeBiddersUnderMin_eq]
  exact (sort_perm bidders).filter _

/-- The bid-amount mapping and the highest bidder with which the loop starts. -/
theorem startState_eq (auction : Auction) (bidders : List Bidder) :
    startState auction bidders =
      ⟨removeBiddersUnderMin (sortBiddersByEarliest bidders) auction.minPriceCents,
        (getInitialBidsLoop (removeBiddersUnderMin (sortBiddersByEarliest bidders)
          auction.minPriceCents) emptyMap 0 "").1,
        (getInitialBidsLoop (removeBiddersUnderMin (sortBiddersByEarliest bidders)
          auction.minPriceCents) emptyMap 0 "").2, true⟩ := by
  simp [startState, getInitialBids, pool_isSorted]

/-- A result with an error other than the two early ones comes from the loop. -/
theorem ResolveAuction_error {fuel : Nat} {auction : Auction} {bidders : List Bidder}
    {r : ResolveResult} (h : ResolveAuction fuel auction bidders = some r)
    (herr : r.err = some AuctionError.missingHighestBid) :
    ∃ e, simulate auction fuel (startState auction bidders) = some (.error e) := by
  by_cases hne : bidders = []
  · subst hne; rw [ResolveAuction_nil] at h; cases h; cases herr
  by_cases hp : removeBiddersUnderMin (sortBiddersByEarliest bidders) auction.minPriceCents = []
  · rw [ResolveAuction_cheap _ _ _ hne hp] at h; cases h; cases herr
  rw [ResolveAuction_run _ _ _ hne hp] at h
  cases hs : simulate auction fuel (startState auction bidders) with
  | none => rw [hs] at h; cases h
  | some x =>
    cases x with
    | error e => exact ⟨e, rfl⟩
    | ok st =>
      rw [hs] at h; cases h
      revert herr; unfold finalResult; split <;> simp

/-- C19: `ResolveAuction` returns the "bidsMap initialized incorrectly, missing
highest bidder bid" error exactly when at least two bidders are eligible, no
eligible bidder has a positive initial bid amount and no eligible bidder has the
empty GUID.  When some eligible bidder has a positive initial bid amount the error
is never returned: the highest bidder has an entry in the bid-amount mapping when
the loop starts and at the end of every pass. -/
theorem C19_missing_highest_bid_error (auction : Auction) (bidders : List Bidder) :
    ((∃ r, Returns auction bidders r ∧ r.err = some AuctionError.missingHighestBid) ↔
      (2 ≤ (bidders.filter (fun b => decide (Eligible auction b))).length ∧
       (∀ b ∈ bidders, Eligible auction b → b.InitialBid.AmountCents ≤ 0) ∧
       (∀ b ∈ bidders, Eligible auction b → b.GUID ≠ ""))) ∧
    ((∃ b ∈ bidders, Eligible auction b ∧ 0 < b.InitialBid.AmountCents) →
      (∀ r, Returns auction bidders r → r.err ≠ some AuctionError.missingHighestBid) ∧
      ((startState auction bidders).bids (startState auction bidders).highestBidder).isSome ∧
      ∀ n st, stateAfterPass auction n (startState auction bidders) = some st →
        (st.bids st.highestBidder).isSome) := by
  have hlen := (pool_perm auction bidders).length_eq
  have hstart := startState_eq auction bidders
  -- the entry of the highest bidder when some eligible initial amount is positive
  have hposkey : (∃ b ∈ bidders, Eligible auction b ∧ 0 < b.InitialBid.AmountCents) →
      ((startState auction bidders).bids (startState auction bidders).highestBidder).isSome := by
    rintro ⟨b, hb, he, hpos⟩
    obtain ⟨d, hd, hdg⟩ := initialBidsLoop_highest_mem
      (removeBiddersUnderMin (sortBiddersByEarliest bidders) auction.minPriceCents) emptyMap 0 ""
      ⟨b, mem_pool.2 ⟨hb, he⟩, hpos⟩
    rw [hstart]; simp only
    rw [hdg]
    exact initialBidsLoop_key _ _ _ _ d hd
  have hiff : (∃ r, Returns auction bidders r ∧ r.err = some AuctionError.missingHighestBid) ↔
      (2 ≤ (bidders.filter (fun b => decide (Eligible auction b))).length ∧
       (∀ b ∈ bidders, Eligible auction b → b.InitialBid.AmountCents ≤ 0) ∧
       (∀ b ∈ bidders, Eligible auction b → b.GUID ≠ "")) := by
    constructor
    · rintro ⟨r, ⟨fuel, hfuel⟩, herr⟩
      obtain ⟨e, hsim⟩ := ResolveAuction_error hfuel herr
      by_contra hcon
      refine simulate_ok_of_key auction fuel (startState auction bidders) e ?_ hsim
      by_cases h2 : 2 ≤ (bidders.filter (fun b => decide (Eligible auction b))).length
      · right
        by_cases hpos : ∃ b ∈ bidders, Eligible auction b ∧ 0 < b.InitialBid.AmountCents
        · exact hposkey hpos
        · have hnonpos : ∀ b ∈ bidders, Eligible auction b → b.InitialBid.AmountCents ≤ 0 := by
            intro b hb he
            by_contra hlt
            exact hpos ⟨b, hb, he, by omega⟩
          have hguid : ∃ b ∈ bidders, Eligible auction b ∧ b.GUID = "" := by
            by_contra hno
            exact hcon ⟨h2, hnonpos, fun b hb he hg => hno ⟨b, hb, he, hg⟩⟩
          obtain ⟨b, hb, he, hg⟩ := hguid
          have hh := initialBidsLoop_highest_unchanged
            (removeBiddersUnderMin (sortBiddersByEarliest bidders) auction.minPriceCents)
            emptyMap 0 "" (fun c hc => hnonpos c (mem_pool.1 hc).1 (mem_pool.1 hc).2)
          rw [hstart]; simp only
          rw [hh, ← hg]
          exact initialBidsLoop_key _ _ _ _ b (mem_pool.2 ⟨hb, he⟩)
      · left
        rw [hstart]; simp only
        omega
    · rintro ⟨h2, hnonpos, hguid⟩
      rw [← hlen] at h2
      have hh := initialBidsLoop_highest_unchanged
        (removeBiddersUnderMin (sortBiddersByEarliest bidders) auction.minPriceCents)
        emptyMap 0 "" (fun c hc => hnonpos c (mem_pool.1 hc).1 (mem_pool.1 hc).2)
      have hk := initialBidsLoop_other
        (removeBiddersUnderMin (sortBiddersByEarliest bidders) auction.minPriceCents)
        emptyMap 0 "" "" (fun c hc => hguid c (mem_pool.1 hc).1 (mem_pool.1 hc).2)
      have hpne : removeBiddersUnderMin (sortBiddersByEarliest bidders) auction.minPriceCents ≠
          [] := by
        intro h0; rw [h0] at h2; simp at h2
      have hbne : bidders ≠ [] := by
        intro h0; rw [h0] at hpne; exact hpne rfl
      refine ⟨⟨"", 0, some AuctionError.missingHighestBid⟩, ⟨1, ?_⟩, rfl⟩
      rw [ResolveAuction_run _ _ _ hbne hpne, hstart]
      rw [hh]
      match hpool : removeBiddersUnderMin (sortBiddersByEarliest bidders)
          auction.minPriceCents, h2 with
      | p :: q :: rest, _ =>
        have hp : p.GUID ≠ "" := by
          apply hguid p
          · exact (mem_pool.1 (hpool ▸ List.mem_cons_self p _)).1
          · exact (mem_pool.1 (hpool ▸ List.mem_cons_self p _)).2
        rw [hpool] at hk
        have hk0 : (getInitialBidsLoop (p :: q :: rest) emptyMap 0 "").1 "" = none := hk
        simp [simulate, runPass, passBody, hk0, Ne.symm hp]
  refine ⟨hiff, fun hpos => ⟨?_, hposkey hpos, ?_⟩⟩
  · intro r hret herr
    obtain ⟨b, hb, he, hlt⟩ := hpos
    have := (hiff.1 ⟨r, hret, herr⟩).2.1 b hb he
    omega
  · intro n st hst
    exact stateAfterPass_preserves auction (fun s => (s.bids s.highestBidder).isSome)
      (fun s b s' hs hp => passBody_keeps_key auction s s' b hs hp) (fun s hs => hs) n _ st
      (hposkey hpos) hst

theorem bidOf_setKey (m : BidsMap) (k k' : String) (v : Int) :
    bidOf (setKey m k v) k' = if k' = k then v else bidOf m k' := by
  unfold bidOf setKey
  split_ifs <;> rfl

theorem passBody_loopInv (auction : Auction) (bids0 : BidsMap) (st st' : SimState) (b : Bidder)
    (hJ : LoopInv auction bids0 st) (h : passBody auction st b = .ok st') :
    LoopInv auction bids0 st' := by
  obtain ⟨h1, h2, h3, h4⟩ := hJ
  unfold passBody at h
  split at h
  · next only hpool =>
    split_ifs at h with hlt
    · cases h
      have hq := h4 only (by rw [hpool]; exact List.mem_singleton_self only)
      have hr := h3 st.highestBidder
      have hw : wrapInt64 (bidOf st.bids st.highestBidder + only.BidStrategy.BidIncrementCents) =
          bidOf st.bids st.highestBidder + only.BidStrategy.BidIncrementCents :=
        wrapInt64_eq ⟨by have := hr.1; omega, by omega⟩
      refine ⟨?_, ?_, ?_, h4⟩
      · intro k
        simp only [bidOf_setKey, if_true, hw]
        split_ifs
        · exact le_refl _
        · have := h1 k; omega
      · intro k
        simp only [bidOf_setKey, hw]
        split_ifs with hk
        · have := h2 st.highestBidder; rw [hk]; omega
        · exact h2 k
      · intro k
        simp only [bidOf_setKey]
        split_ifs
        · exact wrapInt64_inInt64 _
        · exact h3 k
    · cases h
      exact ⟨h1, h2, h3, h4⟩
  · split_ifs at h with hg
    · cases h; exact ⟨h1, h2, h3, h4⟩
    · split at h
      · cases h
      · next highestBid hbid =>
        simp only at h
        have hb : bidOf st.bids st.highestBidder = highestBid := by
          unfold bidOf; rw [hbid]; rfl
        split_ifs at h with hraise
        · cases h
          refine ⟨?_, ?_, ?_, h4⟩
          · intro k
            simp only [bidOf_setKey, if_true]
            split_ifs
            · exact le_refl _
            · have := h1 k; omega
          · intro k
            simp only [bidOf_setKey]
            split_ifs with hk
            · have a1 := h2 b.GUID
              have a2 := h1 b.GUID
              rw [hk]; omega
            · exact h2 k
          · intro k
            simp only [bidOf_setKey]
            split_ifs
            · exact wrapInt64_inInt64 _
            · exact h3 k
        · cases h; exact ⟨h1, h2, h3, h4⟩

theorem eliminate_loopInv (auction : Auction) (bids0 : BidsMap) (st : SimState)
    (hJ : LoopInv auction bids0 st) : LoopInv auction bids0 (eliminate st) :=
  ⟨hJ.1, hJ.2.1, hJ.2.2.1, fun c hc => hJ.2.2.2 c (List.mem_filter.1 hc).1⟩

/-- The loop of `getInitialBids` on non-negative amounts and distinct, fresh
GUIDs: the amount stored for the highest bidder bounds every stored amount. -/
theorem initialBidsLoop_leads : ∀ (l : List Bidder) (m : BidsMap) (hb : Int) (h : String),
    (l.map (·.GUID)).Nodup → (∀ b ∈ l, m b.GUID = none) →
    (∀ b ∈ l, 0 ≤ b.InitialBid.AmountCents) →
    (∀ k, bidOf m k ≤ hb) → bidOf m h = hb → (m h = none → hb = 0) →
    ∀ k, bidOf (getInitialBidsLoop l m hb h).1 k ≤
      bidOf (getInitialBidsLoop l m hb h).1 (getInitialBidsLoop l m hb h).2
  | [], m, hb, h, _, _, _, hle, hh, _ => fun k => by
    simp only [getInitialBidsLoop]; rw [hh]; exact hle k
  | c :: l, m, hb, h, hnd, hfresh, hnn, hle, hh, hz => by
    rw [List.map_cons, List.nodup_cons] at hnd
    have hc0 := hnn c (List.mem_cons_self _ _)
    have hcf := hfresh c (List.mem_cons_self _ _)
    have hfresh' : ∀ b ∈ l, setKey m c.GUID c.InitialBid.AmountCents b.GUID = none := by
      intro b hbl
      have hne : b.GUID ≠ c.GUID := fun e => hnd.1 (List.mem_map.2 ⟨b, hbl, e⟩)
      simp only [setKey, hne, if_false]
      exact hfresh b (List.mem_cons_of_mem _ hbl)
    have hnn' : ∀ b ∈ l, 0 ≤ b.InitialBid.AmountCents :=
      fun b hbl => hnn b (List.mem_cons_of_mem _ hbl)
    rw [getInitialBidsLoop]
    split_ifs with hlt
    · refine initialBidsLoop_leads l _ _ _ hnd.2 hfresh' hnn' ?_ ?_ ?_
      · intro k
        rw [bidOf_setKey]
        split_ifs
        · exact le_refl _
        · have := hle k; omega
      · rw [bidOf_setKey, if_pos rfl]
      · intro hnone; simp [setKey] at hnone
    · refine initialBidsLoop_leads l _ _ _ hnd.2 hfresh' hnn' ?_ ?_ ?_
      · intro k
        rw [bidOf_setKey]
        split_ifs
        · omega
        · exact hle k
      · rw [bidOf_setKey]
        split_ifs with hgc
        · have := hz (hgc ▸ hcf); omega
        · exact hh
      · intro hnone
        by_cases hgc : h = c.GUID
        · simp [setKey, hgc] at hnone
        · simp only [setKey, hgc, if_false] at hnone
          exact hz hnone

theorem initialBidsLoop_range : ∀ (l : List Bidder) (m : BidsMap) (hb : Int) (h : String),
    (∀ b ∈ l, InInt64 b.InitialBid.AmountCents) → (∀ k, InInt64 (bidOf m k)) →
    ∀ k, InInt64 (bidOf (getInitialBidsLoop l m hb h).1 k)
  | [], _, _, _, _, hm => hm
  | c :: l, m, hb, h, hr, hm => by
    have hm' : ∀ k, InInt64 (bidOf (setKey m c.GUID c.InitialBid.AmountCents) k) := by
      intro k
      rw [bidOf_setKey]
      split_ifs
      · exact hr c (List.mem_cons_self _ _)
      · exact hm k
    have hr' : ∀ b ∈ l, InInt64 b.InitialBid.AmountCents :=
      fun b hbl => hr b (List.mem_cons_of_mem _ hbl)
    rw [getInitialBidsLoop]
    split_ifs
    · exact initialBidsLoop_range l _ _ _ hr' hm'
    · exact initialBidsLoop_range l _ _ _ hr' hm'

theorem finalResult_amount (m : MaxBidsMap) (st : SimState) :
    (finalResult m st).amount = bidOf st.bids st.highestBidder := by
  unfold finalResult; split <;> rfl

/-- Distinct GUIDs in the input give distinct GUIDs in the working pool. -/
theorem pool_nodup (auction : Auction) (bidders : List Bidder)
    (h : (bidders.map (·.GUID)).Nodup) :
    ((removeBiddersUnderMin (sortBiddersByEarliest bidders) auction.minPriceCents).map
      (·.GUID)).Nodup := by
  rw [((pool_perm auction bidders).map (·.GUID)).nodup_iff]
  exact h.sublist ((List.filter_sublist _).map _)

/-- C19 at the three-bidder test with all initial bids set to 0 (the error is
returned), and at the "happy path" test (the highest bidder has an entry in the
bid-amount mapping when the loop starts). -/
theorem C19_witness :
    (∃ r, Returns { id := "testAuction", minPriceCents := 2000 }
        [{ GUID := "EarlyBird", BidStrategy := { MaxBidCents := 2000, BidIncrementCents := 20 },
           InitialBid := { CreatedAt := 1, AmountCents := 0 } },
         { GUID := "HungryBird", BidStrategy := { MaxBidCents := 2000, BidIncrementCents := 20 },
           InitialBid := { CreatedAt := 2, AmountCents := 0 } },
         { GUID := "SleepyBird", BidStrategy := { MaxBidCents := 2000, BidIncrementCents := 20 },
           InitialBid := { CreatedAt := 3, AmountCents := 0 } }] r ∧
      r.err = some AuctionError.missingHighestBid) ∧
    ((startState { id := "testAuction", minPriceCents := 100 }
        [{ GUID := "Low", BidStrategy := { MaxBidCents := 2000, BidIncrementCents := 500 },
           InitialBid := { CreatedAt := 1, AmountCents := 1000 } },
         { GUID := "High", BidStrategy := { MaxBidCents := 30000, BidIncrementCents := 500 },
           InitialBid := { CreatedAt := 2, AmountCents := 500 } }]).bids
      (startState { id := "testAuction", minPriceCents := 100 }
        [{ GUID := "Low", BidStrategy := { MaxBidCents := 2000, BidIncrementCents := 500 },
           InitialBid := { CreatedAt := 1, AmountCents := 1000 } },
         { GUID := "High", BidStrategy := { MaxBidCents := 30000, BidIncrementCents := 500 },
           InitialBid := { CreatedAt := 2, AmountCents := 500 } }]).highestBidder).isSome :=
  ⟨(C19_missing_highest_bid_error { id := "testAuction", minPriceCents := 2000 } _).1.2
      ⟨by decide, by decide, by decide⟩,
   ((C19_missing_highest_bid_error { id := "testAuction", minPriceCents := 100 } _).2
      ⟨{ GUID := "Low", BidStrategy := { MaxBidCents := 2000, BidIncrementCents := 500 },
         InitialBid := { CreatedAt := 1, AmountCents := 1000 } },
        by decide, by decide, by decide⟩).2.1⟩

/-- C20 (as stated, fails on the code).  With minimum 100, two bidders share the
GUID "X": the earlier one (maximum 3000, initial bid 1000) and a later one
(maximum 500, initial bid 500).  The later initial bid overwrites the entry of
"X", and "X" wins at 500, below the eligible first bidder's initial bid 1000.
With minimum -10, the bidder with the empty GUID (initial bid -5) and "B" (initial
bid -1), both with increment 0: the empty GUID wins at -5, below the initial bid
of the eligible "B". -/
theorem C20_counterexample :
    (Returns { id := "testAuction", minPriceCents := 100 }
        [{ GUID := "X", BidStrategy := { MaxBidCents := 3000, BidIncrementCents := 500 },
           InitialBid := { CreatedAt := 1, AmountCents := 1000 } },
         { GUID := "X", BidStrategy := { MaxBidCents := 500, BidIncrementCents := 500 },
           InitialBid := { CreatedAt := 2, AmountCents := 500 } }]
        { winner := "X", amount := 500, err := none } ∧
      Eligible { id := "testAuction", minPriceCents := 100 }
        { GUID := "X", BidStrategy := { MaxBidCents := 3000, BidIncrementCents := 500 },
          InitialBid := { CreatedAt := 1, AmountCents := 1000 } } ∧
      ¬ ((1000 : Int) ≤ 500)) ∧
    (Returns { id := "testAuction", minPriceCents := -10 }
        [{ GUID := "", BidStrategy := { MaxBidCents := 100, BidIncrementCents := 0 },
           InitialBid := { CreatedAt := 1, AmountCents := -5 } },
         { GUID := "B", BidStrategy := { MaxBidCents := -3, BidIncrementCents := 0 },
           InitialBid := { CreatedAt := 2, AmountCents := -1 } }]
        { winner := "", amount := -5, err := none } ∧
      Eligible { id := "testAuction", minPriceCents := -10 }
        { GUID := "B", BidStrategy := { MaxBidCents := -3, BidIncrementCents := 0 },
          InitialBid := { CreatedAt := 2, AmountCents := -1 } } ∧
      ¬ ((-1 : Int) ≤ -5)) :=
  ⟨⟨⟨3, by decide⟩, by decide, by decide⟩, ⟨⟨3, by decide⟩, by decide, by decide⟩⟩

/-- C20 (amended): for a bidder list with distinct GUIDs, non-negative increments
and non-negative initial bid amounts, all amounts being `int64` values and no
increment overflowing when added to the minimum price: at the end of every
simulation pass the amount recorded for the highest bidder is at least every
amount in the bid-amount mapping, and whenever `ResolveAuction` returns without
error the winning amount is at least the initial bid amount of every eligible
bidder. -/
theorem C20_highest_amount_dominates (auction : Auction) (bidders : List Bidder)
    (hguid : (bidders.map (·.GUID)).Nodup)
    (hinc : ∀ b ∈ bidders, 0 ≤ b.BidStrategy.BidIncrementCents)
    (hamt : ∀ b ∈ bidders, 0 ≤ b.InitialBid.AmountCents)
    (hrange : ∀ b ∈ bidders, InInt64 b.InitialBid.AmountCents)
    (hover : ∀ b ∈ bidders,
      auction.minPriceCents + b.BidStrategy.BidIncrementCents ≤ int64Half) :
    (∀ n st, stateAfterPass auction n (startState auction bidders) = some st →
      ∀ k v, st.bids k = some v → v ≤ bidOf st.bids st.highestBidder) ∧
    (∀ r, Returns auction bidders r → r.err = none →
      ∀ b ∈ bidders, Eligible auction b → b.InitialBid.AmountCents ≤ r.amount) := by
  have hstart := startState_eq auction bidders
  have hnd := pool_nodup auction bidders hguid
  have hinv : LoopInv auction (startState auction bidders).bids (startState auction bidders) := by
    rw [hstart]
    refine ⟨?_, fun k => le_refl _, ?_, ?_⟩
    · exact initialBidsLoop_leads _ emptyMap 0 "" hnd (fun _ _ => rfl)
        (fun b hb => hamt b (mem_pool.1 hb).1) (fun k => le_refl _) rfl (fun _ => rfl)
    · exact initialBidsLoop_range _ emptyMap 0 "" (fun b hb => hrange b (mem_pool.1 hb).1)
        (fun k => by unfold InInt64 int64Half bidOf emptyMap; simp)
    · intro c hc
      exact ⟨hinc c (mem_pool.1 hc).1, hover c (mem_pool.1 hc).1⟩
  constructor
  · intro n st hst k v hk
    have hJ := stateAfterPass_preserves auction
      (LoopInv auction (startState auction bidders).bids)
      (fun s b s' hs hp => passBody_loopInv auction _ s s' b hs hp)
      (fun s hs => eliminate_loopInv auction _ s hs) n _ st hinv hst
    have := hJ.1 k
    unfold bidOf at this
    rw [hk] at this
    exact this
  · rintro r ⟨fuel, hfuel⟩ herr b hb he
    obtain ⟨st, hsim, hr⟩ := ResolveAuction_ok hfuel herr
    have hJ := simulate_preserves auction
      (LoopInv auction (startState auction bidders).bids)
      (fun s b s' hs hp => passBody_loopInv auction _ s s' b hs hp)
      (fun s hs => eliminate_loopInv auction _ s hs) (fun s hs => hs) fuel _ st hinv hsim
    have hval : bidOf (startState auction bidders).bids b.GUID = b.InitialBid.AmountCents := by
      rw [hstart]
      simp only [bidOf]
      rw [initialBidsLoop_value _ emptyMap 0 "" hnd b (mem_pool.2 ⟨hb, he⟩)]
      rfl
    rw [hr, finalResult_amount, ← hval]
    exact le_trans (hJ.2.1 b.GUID) (hJ.1 b.GUID)

/-- C20 (amended) at the "happy path" test: the winning amount 2500 is at least
the initial bid 1000 of "Low". -/
theorem C20_witness :
    ({ GUID := "Low", BidStrategy := { MaxBidCents := 2000, BidIncrementCents := 500 },
       InitialBid := { CreatedAt := 1, AmountCents := 1000 } } : Bidder).InitialBid.AmountCents ≤
      ({ winner := "High", amount := 2500, err := none } : ResolveResult).amount :=
  (C20_highest_amount_dominates { id := "testAuction", minPriceCents := 100 }
    [{ GUID := "Low", BidStrategy := { MaxBidCents := 2000, BidIncrementCents := 500 },
       InitialBid := { CreatedAt := 1, AmountCents := 1000 } },
     { GUID := "High", BidStrategy := { MaxBidCents := 30000, BidIncrementCents := 500 },
       InitialBid := { CreatedAt := 2, AmountCents := 500 } }]
    (by decide) (by decide) (by decide) (by decide) (by decide)).2
    { winner := "High", amount := 2500, err := none } ⟨4, by decide⟩ rfl
    { GUID := "Low", BidStrategy := { MaxBidCents := 2000, BidIncrementCents := 500 },
      InitialBid := { CreatedAt := 1, AmountCents := 1000 } } (by decide) (by decide)

/-! ## The top bidder's answer to a bid at the runner-up maximum -/

theorem runPass_append (auction : Auction) : ∀ (l₁ l₂ : List Bidder) (st : SimState),
    runPass auction (l₁ ++ l₂) st =
      match runPass auction l₁ st with
      | .error e => .error e
      | .ok st' => runPass auction l₂ st'
  | [], _, _ => rfl
  | b :: l₁, l₂, st => by
    simp only [List.cons_append, runPass]
    cases passBody auction st b with
    | error e => rfl
    | ok st₁ => exact runPass_append auction l₁ l₂ st₁

theorem runPass_bidders (auction : Auction) (l : List Bidder) (st st' : SimState)
    (h : runPass auction l st = .ok st') : st'.bidders = st.bidders :=
  runPass_preserves auction (fun s => s.bidders = st.bidders)
    (fun s b s' hs hp => (passBody_bidders auction s s' b hp).trans hs) l st st' rfl h

/-- In a pool of two or more, a bidder other than the highest bidder whose raise
stays within its maximum takes the lead, one increment above the highest bid. -/
theorem passBody_raise_of_length (auction : Auction) (st : SimState) (b : Bidder) (hb d : Int)
    (hlen : 2 ≤ st.bidders.length) (hne : st.highestBidder ≠ b.GUID)
    (hbid : st.bids st.highestBidder = some hb)
    (hd : b.BidStrategy.BidIncrementCents = d) (hpos : 0 < d) (hlow : -int64Half ≤ hb)
    (hle : hb + d ≤ b.BidStrategy.MaxBidCents) (hrange : b.BidStrategy.MaxBidCents < int64Half) :
    passBody auction st b =
      .ok { st with bids := setKey st.bids b.GUID (hb + d), highestBidder := b.GUID } := by
  have hw : wrapInt64 (hb + d) = hb + d := wrapInt64_eq ⟨by omega, by omega⟩
  match hst : st.bidders, hlen with
  | p :: q :: rest, _ =>
    unfold passBody
    rw [hst]
    simp [hne, hbid, hd, hw, hpos, hle]

/-- In a pool of two or more, a bidder does not raise once the highest bid has
reached its maximum. -/
theorem passBody_hold_of_length (auction : Auction) (st : SimState) (b : Bidder) (hb : Int)
    (hlen : 2 ≤ st.bidders.length) (hbid : st.bids st.highestBidder = some hb)
    (hle : b.BidStrategy.MaxBidCents ≤ hb) : passBody auction st b = .ok st := by
  match hst : st.bidders, hlen with
  | p :: q :: rest, _ =>
    unfold passBody
    rw [hst]
    by_cases hne : st.highestBidder = b.GUID
    · simp [hne]
    · have : ¬ (hb < wrapInt64 (hb + b.BidStrategy.BidIncrementCents) ∧
          wrapInt64 (hb + b.BidStrategy.BidIncrementCents) ≤ b.BidStrategy.MaxBidCents) := by
        omega
      simp only [hne, if_false, hbid, gt_iff_lt, this]

theorem runPass_hold (auction : Auction) (hb : Int) : ∀ (l : List Bidder) (st : SimState),
    2 ≤ st.bidders.length → st.bids st.highestBidder = some hb →
    (∀ b ∈ l, b.BidStrategy.MaxBidCents ≤ hb) → runPass auction l st = .ok st
  | [], _, _, _, _ => rfl
  | b :: l, st, hlen, hbid, hall => by
    rw [runPass, passBody_hold_of_length auction st b hb hlen hbid
      (hall b (List.mem_cons_self _ _))]
    exact runPass_hold auction hb l st hlen hbid (fun c hc => hall c (List.mem_cons_of_mem _ hc))

/-- The loop reaches the elimination that follows pass `n`. -/
theorem simulate_of_stateAfterPass (auction : Auction) : ∀ (n : Nat) (st₀ st : SimState)
    (fuel : Nat), stateAfterPass auction n st₀ = some st →
    simulate auction (fuel + (n + 1)) st₀ = simulate auction fuel (eliminate st)
  | 0, st₀, st, fuel, h => by
    simp only [stateAfterPass, passOf] at h
    split_ifs at h with h1 h2
    cases hrun : runPass auction st₀.bidders st₀ with
    | error e => rw [hrun] at h; cases h
    | ok st₁ =>
      rw [hrun] at h
      simp only [Option.some.injEq] at h
      subst h
      exact simulate_step auction fuel st₀ st₁ (by simpa using h1)
        (fun hnil => h2 (by rw [hnil]; rfl)) hrun
  | n + 1, st₀, st, fuel, h => by
    rw [stateAfterPass] at h
    cases hp : passOf auction st₀ with
    | none => rw [hp] at h; cases h
    | some st₁ =>
      rw [hp] at h
      have h0 := simulate_of_stateAfterPass auction 0 st₀ st₁ (fuel + (n + 1)) hp
      have h1 := simulate_of_stateAfterPass auction n (eliminate st₁) st fuel h
      rw [← h1, ← h0]
      rfl

theorem simulate_of_stateBeforePass (auction : Auction) (n : Nat) (st₀ st : SimState)
    (fuel : Nat) (h : stateBeforePass auction n st₀ = some st) :
    simulate auction (fuel + n) st₀ = simulate auction fuel st := by
  cases n with
  | zero =>
    simp only [stateBeforePass, Option.some.injEq] at h
    subst h; rfl
  | succ n =>
    simp only [stateBeforePass, Option.map_eq_some'] at h
    obtain ⟨st₁, h₁, rfl⟩ := h
    exact simulate_of_stateAfterPass auction n st₀ st₁ fuel h₁

/-- The pool at the start of every pass is a sublist of the pool the loop
started with. -/
theorem stateBeforePass_sublist (auction : Auction) (n : Nat) (st₀ st : SimState)
    (h : stateBeforePass auction n st₀ = some st) : st.bidders.Sublist st₀.bidders := by
  cases n with
  | zero =>
    simp only [stateBeforePass, Option.some.injEq] at h
    subst h; exact List.Sublist.refl _
  | succ n =>
    simp only [stateBeforePass, Option.map_eq_some'] at h
    obtain ⟨st₁, h₁, rfl⟩ := h
    have := stateAfterPass_preserves auction (fun s => s.bidders.Sublist st₀.bidders)
      (fun s b s' hs hp => by
        show s'.bidders.Sublist st₀.bidders
        rw [passBody_bidders auction s s' b hp]; exact hs)
      (fun s hs => (List.filter_sublist _).trans hs) n st₀ st₁ (List.Sublist.refl _) h₁
    exact (List.filter_sublist _).trans this

/-- The loop exits without touching the bids once at most one bidder is left and
the highest bid has reached the minimum price, whatever the loop flag. -/
theorem simulate_finish_any (auction : Auction) (st : SimState)
    (hlen : st.bidders.length ≤ 1)
    (hmin : auction.minPriceCents ≤ bidOf st.bids st.highestBidder) :
    ∃ fuel st', simulate auction fuel st = some (.ok st') ∧
      st'.bids = st.bids ∧ st'.highestBidder = st.highestBidder := by
  cases hel : st.eligibleBidders with
  | false => exact ⟨1, st, simulate_settled auction 0 st hel, rfl, rfl⟩
  | true =>
    obtain ⟨pool, bids, h, el⟩ := st
    simp only at hel hlen hmin
    subst hel
    exact simulate_finish auction pool bids h hlen hmin

theorem runPass_hold_or_skip (auction : Auction) (hb : Int) : ∀ (l : List Bidder) (st : SimState),
    2 ≤ st.bidders.length → st.bids st.highestBidder = some hb →
    (∀ b ∈ l, b.GUID = st.highestBidder ∨ b.BidStrategy.MaxBidCents ≤ hb) →
    runPass auction l st = .ok st
  | [], _, _, _, _ => rfl
  | b :: l, st, hlen, hbid, hall => by
    have hstep : passBody auction st b = .ok st := by
      rcases hall b (List.mem_cons_self _ _) with hg | hle
      · match hst : st.bidders, hlen with
        | p :: q :: rest, _ =>
          unfold passBody
          rw [hst]
          simp [hg]
      · exact passBody_hold_of_length auction st b hb hlen hbid hle
    rw [runPass, hstep]
    exact runPass_hold_or_skip auction hb l st hlen hbid
      (fun c hc => hall c (List.mem_cons_of_mem _ hc))

theorem length_le_one_of_nodup_of_eq {l : List Bidder} {a : Bidder} (hnd : l.Nodup)
    (hall : ∀ x ∈ l, x = a) : l.length ≤ 1 := by
  match l, hnd, hall with
  | [], _, _ => simp
  | [_], _, _ => simp
  | x :: y :: rest, hnd, hall =>
    have hx := hall x (List.mem_cons_self _ _)
    have hy := hall y (List.mem_cons_of_mem _ (List.mem_cons_self _ _))
    rw [List.nodup_cons] at hnd
    exact absurd (hx.trans hy.symm ▸ List.mem_cons_self _ _) hnd.1

/-- The general step behind C4: in some pass the turn comes to the bidder `hi`
while another bidder holds the highest bid and that bid equals `m`, the largest
maximum among the other eligible bidders.  Then `hi` raises to `m` plus its
increment, nobody answers, and `ResolveAuction` returns `hi` at that amount. -/
theorem top_bidder_answer_wins (auction : Auction) (bidders : List Bidder) (hi : Bidder)
    (m : Int) (n i : Nat) (st₁ : SimState)
    (hguid : (bidders.map (·.GUID)).Nodup)
    (hinc : 0 < hi.BidStrategy.BidIncrementCents)
    (hothers : ∀ b ∈ bidders, Eligible auction b → b ≠ hi → b.BidStrategy.MaxBidCents ≤ m)
    (hrunner : ∃ lo ∈ bidders, Eligible auction lo ∧ lo ≠ hi ∧ lo.BidStrategy.MaxBidCents = m)
    (hcap : m + hi.BidStrategy.BidIncrementCents ≤ hi.BidStrategy.MaxBidCents)
    (hrange : InInt64 hi.BidStrategy.MaxBidCents) (hminr : InInt64 auction.minPriceCents)
    (hturn : stateAtTurn auction n i (startState auction bidders) = some st₁)
    (hhi : st₁.bidders[i]? = some hi) (hlen : 2 ≤ st₁.bidders.length)
    (hbid : st₁.bids st₁.highestBidder = some m) (hother : st₁.highestBidder ≠ hi.GUID) :
    Returns auction bidders
      ⟨hi.GUID, m + hi.BidStrategy.BidIncrementCents, none⟩ := by
  -- the start of the pass and the part of the pass before the turn of `hi`
  unfold stateAtTurn at hturn
  cases hbefore : stateBeforePass auction n (startState auction bidders) with
  | none => rw [hbefore] at hturn; cases hturn
  | some st =>
    rw [hbefore] at hturn
    simp only at hturn
    split_ifs at hturn with hcond
    obtain ⟨hel, hilt⟩ := hcond
    cases hpre : runPass auction (st.bidders.take i) st with
    | error e => rw [hpre] at hturn; cases hturn
    | ok s =>
      rw [hpre] at hturn
      simp only [Option.some.injEq] at hturn
      subst hturn
      have hb₁ : s.bidders = st.bidders := runPass_bidders auction _ st s hpre
      rw [hb₁] at hhi hlen
      obtain ⟨_, hget⟩ := List.getElem?_eq_some.1 hhi
      have hsplit : st.bidders = st.bidders.take i ++ hi :: st.bidders.drop (i + 1) := by
        conv_lhs => rw [← List.take_append_drop i st.bidders]
        rw [List.drop_eq_getElem_cons hilt, hget]
      -- the pool of this pass inside the starting pool
      have hsub : st.bidders.Sublist
          (removeBiddersUnderMin (sortBiddersByEarliest bidders) auction.minPriceCents) := by
        have := stateBeforePass_sublist auction n _ st hbefore
        rwa [startState_eq] at this
      have hpoolnd := (pool_nodup auction bidders hguid).of_map
      have hnd : st.bidders.Nodup := hpoolnd.sublist hsub
      have hmemhi : hi ∈ st.bidders := by
        rw [hsplit]; simp
      have hmem : ∀ b ∈ st.bidders, b ∈ bidders ∧ Eligible auction b :=
        fun b hb => mem_pool.1 (hsub.subset hb)
      obtain ⟨lo, hlo, hloe, -, hlom⟩ := hrunner
      have hmmin : auction.minPriceCents ≤ m := by
        have : auction.minPriceCents ≤ lo.BidStrategy.MaxBidCents := hloe
        omega
      -- `hi` raises, the bidders after it hold
      have hraise := passBody_raise_of_length auction s hi m hi.BidStrategy.BidIncrementCents
        (by rw [hb₁]; exact hlen) hother hbid rfl hinc (by have := hminr.1; omega) hcap hrange.2
      have hrest : runPass auction (st.bidders.drop (i + 1))
          { s with bids := setKey s.bids hi.GUID (m + hi.BidStrategy.BidIncrementCents),
                   highestBidder := hi.GUID } =
          .ok { s with bids := setKey s.bids hi.GUID (m + hi.BidStrategy.BidIncrementCents),
                       highestBidder := hi.GUID } := by
        apply runPass_hold_or_skip auction (m + hi.BidStrategy.BidIncrementCents)
        · show 2 ≤ s.bidders.length
          rw [hb₁]; exact hlen
        · simp [setKey]
        · intro b hb
          have hbin : b ∈ st.bidders := List.mem_of_mem_drop hb
          by_cases hbh : b = hi
          · left; rw [hbh]
          · right
            have := hothers b (hmem b hbin).1 (hmem b hbin).2 hbh
            omega
      have hpass : runPass auction st.bidders st =
          .ok { s with bids := setKey s.bids hi.GUID (m + hi.BidStrategy.BidIncrementCents),
                       highestBidder := hi.GUID } := by
        conv_lhs => rw [hsplit]
        rw [runPass_append, hpre]
        simp only [runPass, hraise]
        exact hrest
      -- the elimination leaves at most `hi`
      have hdel : (deleteFunc st.bidders (eliminated
          (setKey s.bids hi.GUID (m + hi.BidStrategy.BidIncrementCents)) hi.GUID)).length ≤ 1 := by
        apply length_le_one_of_nodup_of_eq (a := hi)
        · exact hnd.sublist (List.filter_sublist _)
        · intro b hb
          by_contra hbh
          have hbin : b ∈ st.bidders := (List.mem_filter.1 hb).1
          have hle := hothers b (hmem b hbin).1 (hmem b hbin).2 hbh
          have hkeep := (List.mem_filter.1 hb).2
          have : b.BidStrategy.MaxBidCents ≤ m + hi.BidStrategy.BidIncrementCents := by omega
          simp [eliminated, bidOf, setKey, this] at hkeep
      obtain ⟨fuel, st', hsim, hbids, hh⟩ := simulate_finish_any auction
        (eliminate { s with bids := setKey s.bids hi.GUID (m + hi.BidStrategy.BidIncrementCents),
                            highestBidder := hi.GUID })
        (by simp only [eliminate]; rw [hb₁]; exact hdel)
        (by simp only [eliminate, bidOf, setKey, if_true, Option.getD_some]; omega)
      have hne : bidders ≠ [] := by
        intro h0; rw [h0] at hlo; cases hlo
      have hpne : removeBiddersUnderMin (sortBiddersByEarliest bidders) auction.minPriceCents ≠
          [] := by
        intro h0
        have := hsub.subset hmemhi
        rw [h0] at this; cases this
      refine ⟨fuel + 1 + n, ?_⟩
      rw [ResolveAuction_run _ _ _ hne hpne,
        simulate_of_stateBeforePass auction n _ st (fuel + 1) hbefore,
        simulate_step auction fuel st _ hel (fun h0 => by rw [h0] at hmemhi; cases hmemhi) hpass]
      have hsim' : simulate auction fuel (eliminate
          { s with bids := setKey s.bids hi.GUID (m + hi.BidStrategy.BidIncrementCents),
                   highestBidder := hi.GUID }) = some (.ok st') := hsim
      simp only [eliminate] at hsim'
      rw [hsim']
      simp only
      rw [finalResult_eq _ st' hi.GUID (m + hi.BidStrategy.BidIncrementCents)
        (by rw [hh]; rfl) (by rw [hbids]; simp [eliminate, bidOf, setKey])]
      rw [maxBidWinners_pool]
      cases hf : (removeBiddersUnderMin (sortBiddersByEarliest bidders)
          auction.minPriceCents).find?
          (fun b => decide (b.BidStrategy.MaxBidCents = m + hi.BidStrategy.BidIncrementCents)) with
      | none => left; rfl
      | some x =>
        right
        have hx := List.find?_some hf
        have hxm := mem_pool.1 (List.mem_of_find?_eq_some hf)
        simp only [decide_eq_true_eq] at hx
        have hxhi : x = hi := by
          by_contra hne'
          have := hothers x hxm.1 hxm.2 hne'
          omega
        rw [hxhi]; rfl

/-- One full pass over the pool `[lo, hi]` in which `hi` holds the highest bid
`y`: `lo` raises by its increment `dl` and `hi` answers with its increment `dh`. -/
theorem two_round (auction : Auction) (lo hi : Bidder) (bids : BidsMap) (y dl dh : Int)
    (hguid : lo.GUID ≠ hi.GUID)
    (hlo : lo.BidStrategy.BidIncrementCents = dl) (hhi : hi.BidStrategy.BidIncrementCents = dh)
    (hdl : 0 < dl) (hdh : 0 < dh) (hy : bids hi.GUID = some y) (hy0 : 0 < y)
    (h1 : y + dl ≤ lo.BidStrategy.MaxBidCents) (h2 : y + dl + dh ≤ hi.BidStrategy.MaxBidCents)
    (hrl : lo.BidStrategy.MaxBidCents < int64Half)
    (hrh : hi.BidStrategy.MaxBidCents < int64Half) :
    runPass auction [lo, hi] ⟨[lo, hi], bids, hi.GUID, true⟩ =
      .ok ⟨[lo, hi], setKey (setKey bids lo.GUID (y + dl)) hi.GUID (y + dl + dh),
        hi.GUID, true⟩ := by
  have p1 := passBody_raise auction lo hi lo [] bids hi.GUID y dl (Ne.symm hguid) hy hlo hdl hy0
    h1 hrl
  have p2 := passBody_raise auction lo hi hi [] (setKey bids lo.GUID (y + dl)) lo.GUID (y + dl)
    dh hguid (by simp [setKey]) hhi hdh (by omega) h2 hrh
  simp only [runPass, p1, p2]

/-- The two-bidder ladder: `hi` holds the highest bid `y` and the maximum of `lo`
lies one increment of `lo` plus a whole number of rounds of both increments above
`y`.  The simulation ends with `hi` highest, one increment of `hi` above the
maximum of `lo`. -/
theorem two_bidder_ladder (auction : Auction) (lo hi : Bidder) (dl dh : Int)
    (hguid : lo.GUID ≠ hi.GUID)
    (hlo : lo.BidStrategy.BidIncrementCents = dl) (hhi : hi.BidStrategy.BidIncrementCents = dh)
    (hdl : 0 < dl) (hdh : 0 < dh) (helig : auction.minPriceCents ≤ lo.BidStrategy.MaxBidCents)
    (hcap : lo.BidStrategy.MaxBidCents + dh ≤ hi.BidStrategy.MaxBidCents)
    (hrange : hi.BidStrategy.MaxBidCents < int64Half) :
    ∀ (k : Nat) (bids : BidsMap) (y : Int), bids hi.GUID = some y → 0 < y →
      lo.BidStrategy.MaxBidCents = y + dl + (k : Int) * (dl + dh) →
      ∃ fuel st', simulate auction fuel ⟨[lo, hi], bids, hi.GUID, true⟩ = some (.ok st') ∧
        st'.highestBidder = hi.GUID ∧
        bidOf st'.bids hi.GUID = lo.BidStrategy.MaxBidCents + dh := by
  have hne : ¬ hi.GUID = lo.GUID := fun h => hguid h.symm
  intro k
  induction k with
  | zero =>
    intro bids y hy hy0 hstep
    simp only [Nat.cast_zero, zero_mul, add_zero] at hstep
    have hpass := two_round auction lo hi bids y dl dh hguid hlo hhi hdl hdh hy hy0 (by omega)
      (by omega) (by omega) hrange
    have hdel : (deleteFunc [lo, hi] (eliminated
        (setKey (setKey bids lo.GUID (y + dl)) hi.GUID (y + dl + dh)) hi.GUID)).length ≤ 1 := by
      have : lo.BidStrategy.MaxBidCents ≤ y + dl + dh := by omega
      simp only [deleteFunc, List.filter, eliminated, bidOf, setKey, if_true, Option.getD_some,
        this, decide_True, Bool.true_or, Bool.not_true]
      split <;> simp
    obtain ⟨fuel, st', hsim, hb, hh⟩ := simulate_finish auction _
      (setKey (setKey bids lo.GUID (y + dl)) hi.GUID (y + dl + dh)) hi.GUID hdel
      (by simp only [bidOf, setKey, if_true, Option.getD_some]; omega)
    refine ⟨fuel + 1, st', ?_, hh, ?_⟩
    · rw [simulate_step auction fuel _ _ rfl (by simp) hpass]; exact hsim
    · rw [hb]; simp only [bidOf, setKey, if_true, Option.getD_some]; omega
  | succ k ih =>
    intro bids y hy hy0 hstep
    have hk : (0 : Int) ≤ (k : Int) * (dl + dh) :=
      Int.mul_nonneg (Int.ofNat_nonneg k) (by omega)
    have e1 : (((k + 1 : Nat) : Int)) * (dl + dh) = k * (dl + dh) + (dl + dh) := by
      push_cast; ring
    rw [e1] at hstep
    have hpass := two_round auction lo hi bids y dl dh hguid hlo hhi hdl hdh hy hy0 (by omega)
      (by omega) (by omega) hrange
    have hw : wrapInt64 (dl + (y + dl)) = dl + (y + dl) :=
      wrapInt64_eq ⟨by unfold int64Half; omega, by omega⟩
    have hw' : wrapInt64 (dh + (y + dl + dh)) = dh + (y + dl + dh) :=
      wrapInt64_eq ⟨by unfold int64Half; omega, by omega⟩
    have hkeep : deleteFunc [lo, hi] (eliminated
        (setKey (setKey bids lo.GUID (y + dl)) hi.GUID (y + dl + dh)) hi.GUID) = [lo, hi] := by
      have a1 : ¬ lo.BidStrategy.MaxBidCents ≤ y + dl + dh := by omega
      have a2 : ¬ lo.BidStrategy.MaxBidCents < dl + (y + dl) := by omega
      have a3 : ¬ hi.BidStrategy.MaxBidCents ≤ y + dl + dh := by omega
      have a4 : ¬ hi.BidStrategy.MaxBidCents < dh + (y + dl + dh) := by omega
      simp [deleteFunc, eliminated, bidOf, setKey, hguid, hlo, hhi, hw, hw', a1, a2, a3, a4]
    obtain ⟨fuel, st', hsim, hh, hamt⟩ := ih
      (setKey (setKey bids lo.GUID (y + dl)) hi.GUID (y + dl + dh)) (y + dl + dh)
      (by simp [setKey]) (by omega) (by omega)
    refine ⟨fuel + 1, st', ?_, hh, hamt⟩
    rw [simulate_step auction fuel _ _ rfl (by simp) hpass]
    simp only [hkeep]; exact hsim

/-- The working pool when exactly the two bidders `lo` and `hi` are eligible and
`lo` comes first: it bid strictly earlier, or at the same time and stands before
`hi` in the input. -/
theorem pool_of_two_eligible (auction : Auction) (bidders : List Bidder) (lo hi : Bidder)
    (helig : (bidders.filter (fun b => decide (Eligible auction b))).Perm [lo, hi])
    (horder : lo.InitialBid.CreatedAt < hi.InitialBid.CreatedAt ∨
      (lo.InitialBid.CreatedAt = hi.InitialBid.CreatedAt ∧
        bidders.filter (fun b => decide (Eligible auction b)) = [lo, hi])) :
    removeBiddersUnderMin (sortBiddersByEarliest bidders) auction.minPriceCents = [lo, hi] := by
  have hperm := (pool_perm auction bidders).trans helig
  have hsorted : (removeBiddersUnderMin (sortBiddersByEarliest bidders)
      auction.minPriceCents).Sorted NotLater := by
    rw [removeBiddersUnderMin_eq]; exact (sort_sorted bidders).filter _
  rcases horder with hlt | ⟨heq, hfil⟩
  · exact sorted_unique [lo, hi] _ (by simp [hlt]) hsorted hperm
  · have hpair : ([lo, hi] : List Bidder).Pairwise NotLater := by
      simp [NotLater, heq]
    have hsub : ([lo, hi] : List Bidder).Sublist (sortBiddersByEarliest bidders) := by
      rw [sort_eq_insertionSort]
      exact List.sublist_insertionSort hpair (hfil ▸ List.filter_sublist _)
    have hsub' := hsub.filter (fun b => decide (auction.minPriceCents ≤ b.BidStrategy.MaxBidCents))
    have hlo : Eligible auction lo := by
      have : lo ∈ bidders.filter (fun b => decide (Eligible auction b)) := by rw [hfil]; simp
      simpa using (List.mem_filter.1 this).2
    have hhi : Eligible auction hi := by
      have : hi ∈ bidders.filter (fun b => decide (Eligible auction b)) := by rw [hfil]; simp
      simpa using (List.mem_filter.1 this).2
    unfold Eligible at hlo hhi
    have h2 : ([lo, hi] : List Bidder).filter
        (fun b => decide (auction.minPriceCents ≤ b.BidStrategy.MaxBidCents)) = [lo, hi] := by
      simp [List.filter, hlo, hhi]
    rw [h2, ← removeBiddersUnderMin_eq] at hsub'
    exact (hsub'.eq_of_length hperm.length_eq.symm).symm

/-- The static two-bidder case behind C4: exactly `lo` and `hi` are eligible,
`lo` comes first in the pool, and the maximum of `lo` lies on the ladder of its
own bids.  Then `hi` wins one increment above the maximum of `lo`. -/
theorem two_eligible_on_ladder (auction : Auction) (bidders : List Bidder) (lo hi : Bidder)
    (j : Nat)
    (helig : (bidders.filter (fun b => decide (Eligible auction b))).Perm [lo, hi])
    (horder : lo.InitialBid.CreatedAt < hi.InitialBid.CreatedAt ∨
      (lo.InitialBid.CreatedAt = hi.InitialBid.CreatedAt ∧
        bidders.filter (fun b => decide (Eligible auction b)) = [lo, hi]))
    (hguid : lo.GUID ≠ hi.GUID)
    (hdl : 0 < lo.BidStrategy.BidIncrementCents) (hdh : 0 < hi.BidStrategy.BidIncrementCents)
    (halign :
      (hi.InitialBid.AmountCents ≤ lo.InitialBid.AmountCents ∧ 0 < lo.InitialBid.AmountCents ∧
        lo.BidStrategy.MaxBidCents = lo.InitialBid.AmountCents +
          (j : Int) * (lo.BidStrategy.BidIncrementCents + hi.BidStrategy.BidIncrementCents)) ∨
      (lo.InitialBid.AmountCents < hi.InitialBid.AmountCents ∧ 0 < hi.InitialBid.AmountCents ∧
        lo.BidStrategy.MaxBidCents = hi.InitialBid.AmountCents +
          lo.BidStrategy.BidIncrementCents +
          (j : Int) * (lo.BidStrategy.BidIncrementCents + hi.BidStrategy.BidIncrementCents)))
    (hcap : lo.BidStrategy.MaxBidCents + hi.BidStrategy.BidIncrementCents ≤
      hi.BidStrategy.MaxBidCents)
    (hrange : InInt64 hi.BidStrategy.MaxBidCents) :
    Returns auction bidders
      ⟨hi.GUID, lo.BidStrategy.MaxBidCents + hi.BidStrategy.BidIncrementCents, none⟩ := by
  have hne : ¬ hi.GUID = lo.GUID := fun h => hguid h.symm
  have hpool := pool_of_two_eligible auction bidders lo hi helig horder
  have hnil : bidders ≠ [] := by
    intro h0; rw [h0] at helig; simpa using helig.length_eq
  have hloe : auction.minPriceCents ≤ lo.BidStrategy.MaxBidCents := by
    have : lo ∈ removeBiddersUnderMin (sortBiddersByEarliest bidders) auction.minPriceCents := by
      rw [hpool]; simp
    exact (mem_pool.1 this).2
  have ht : ¬ hi.InitialBid.CreatedAt < lo.InitialBid.CreatedAt := by
    rcases horder with h | ⟨h, -⟩ <;> omega
  have hr2 := hrange.2
  -- it suffices that the simulation ends with `hi` highest at the amount claimed
  suffices hsim : ∃ fuel st', simulate auction fuel (startState auction bidders) =
      some (.ok st') ∧ st'.highestBidder = hi.GUID ∧
      bidOf st'.bids hi.GUID =
        lo.BidStrategy.MaxBidCents + hi.BidStrategy.BidIncrementCents by
    obtain ⟨fuel, st', hs, hh, hamt⟩ := hsim
    refine ⟨fuel, ?_⟩
    rw [ResolveAuction_run _ _ _ hnil (by rw [hpool]; simp), hs]
    simp only
    rw [finalResult_eq _ st' hi.GUID _ hh hamt]
    rw [maxBidWinners_pool, hpool]
    have hlo : ¬ lo.BidStrategy.MaxBidCents =
        lo.BidStrategy.MaxBidCents + hi.BidStrategy.BidIncrementCents := by omega
    by_cases hv : hi.BidStrategy.MaxBidCents =
        lo.BidStrategy.MaxBidCents + hi.BidStrategy.BidIncrementCents
    · right; simp only [List.find?, hlo, hv, decide_True, decide_False, Option.map]
    · left; simp only [List.find?, hlo, hv, decide_False, Option.map]
  have hj : (0 : Int) ≤ (j : Int) *
      (lo.BidStrategy.BidIncrementCents + hi.BidStrategy.BidIncrementCents) :=
    Int.mul_nonneg (Int.ofNat_nonneg j) (by omega)
  rcases halign with ⟨hle, hpos, hstep⟩ | ⟨hlt, hpos, hstep⟩
  · -- `lo` starts as the highest bidder; in the first pass `hi` takes the lead
    have hstart : startState auction bidders =
        ⟨[lo, hi], setKey (setKey emptyMap lo.GUID lo.InitialBid.AmountCents) hi.GUID
          hi.InitialBid.AmountCents, lo.GUID, true⟩ := by
      have hnl : ¬ lo.InitialBid.AmountCents < hi.InitialBid.AmountCents := by omega
      simp [startState, hpool, getInitialBids, isSortedByBidTime, getInitialBidsLoop, hpos, hnl,
        compare_neg_iff, ht]
    have p1 := passBody_skip auction lo hi lo [] (setKey (setKey emptyMap lo.GUID
      lo.InitialBid.AmountCents) hi.GUID hi.InitialBid.AmountCents)
    have p2 := passBody_raise auction lo hi hi [] (setKey (setKey emptyMap lo.GUID
      lo.InitialBid.AmountCents) hi.GUID hi.InitialBid.AmountCents) lo.GUID
      lo.InitialBid.AmountCents hi.BidStrategy.BidIncrementCents hguid
      (by simp [setKey, hguid]) rfl hdh hpos (by omega) hr2
    have hpass : runPass auction [lo, hi]
        ⟨[lo, hi], setKey (setKey emptyMap lo.GUID lo.InitialBid.AmountCents) hi.GUID
          hi.InitialBid.AmountCents, lo.GUID, true⟩ =
        .ok ⟨[lo, hi], setKey (setKey (setKey emptyMap lo.GUID lo.InitialBid.AmountCents) hi.GUID
          hi.InitialBid.AmountCents) hi.GUID
          (lo.InitialBid.AmountCents + hi.BidStrategy.BidIncrementCents), hi.GUID, true⟩ := by
      simp only [runPass, p1, p2]
    rw [hstart]
    cases j with
    | zero =>
      simp only [Nat.cast_zero, zero_mul, add_zero] at hstep
      have hdel : (deleteFunc [lo, hi] (eliminated
          (setKey (setKey (setKey emptyMap lo.GUID lo.InitialBid.AmountCents) hi.GUID
            hi.InitialBid.AmountCents) hi.GUID
            (lo.InitialBid.AmountCents + hi.BidStrategy.BidIncrementCents)) hi.GUID)).length ≤
          1 := by
        have : lo.BidStrategy.MaxBidCents ≤
            lo.InitialBid.AmountCents + hi.BidStrategy.BidIncrementCents := by omega
        simp only [deleteFunc, List.filter, eliminated, bidOf, setKey, if_true, Option.getD_some,
          this, decide_True, Bool.true_or, Bool.not_true]
        split <;> simp
      obtain ⟨fuel, st', hsim, hb, hh⟩ := simulate_finish auction _
        (setKey (setKey (setKey emptyMap lo.GUID lo.InitialBid.AmountCents) hi.GUID
          hi.InitialBid.AmountCents) hi.GUID
          (lo.InitialBid.AmountCents + hi.BidStrategy.BidIncrementCents)) hi.GUID hdel
        (by simp only [bidOf, setKey, if_true, Option.getD_some]; omega)
      refine ⟨fuel + 1, st', ?_, hh, ?_⟩
      · rw [simulate_step auction fuel _ _ rfl (by simp) hpass]; exact hsim
      · rw [hb]; simp only [bidOf, setKey, if_true, Option.getD_some]; omega
    | succ k =>
      have hk : (0 : Int) ≤ (k : Int) *
          (lo.BidStrategy.BidIncrementCents + hi.BidStrategy.BidIncrementCents) :=
        Int.mul_nonneg (Int.ofNat_nonneg k) (by omega)
      have e1 : (((k + 1 : Nat) : Int)) *
          (lo.BidStrategy.BidIncrementCents + hi.BidStrategy.BidIncrementCents) =
          k * (lo.BidStrategy.BidIncrementCents + hi.BidStrategy.BidIncrementCents) +
            (lo.BidStrategy.BidIncrementCents + hi.BidStrategy.BidIncrementCents) := by
        push_cast; ring
      rw [e1] at hstep
      have hw1 : wrapInt64 (lo.BidStrategy.BidIncrementCents + lo.InitialBid.AmountCents) =
          lo.BidStrategy.BidIncrementCents + lo.InitialBid.AmountCents :=
        wrapInt64_eq ⟨by unfold int64Half; omega, by omega⟩
      have hw2 : wrapInt64 (hi.BidStrategy.BidIncrementCents +
          (lo.InitialBid.AmountCents + hi.BidStrategy.BidIncrementCents)) =
          hi.BidStrategy.BidIncrementCents +
            (lo.InitialBid.AmountCents + hi.BidStrategy.BidIncrementCents) :=
        wrapInt64_eq ⟨by unfold int64Half; omega, by omega⟩
      have hkeep : deleteFunc [lo, hi] (eliminated
          (setKey (setKey (setKey emptyMap lo.GUID lo.InitialBid.AmountCents) hi.GUID
            hi.InitialBid.AmountCents) hi.GUID
            (lo.InitialBid.AmountCents + hi.BidStrategy.BidIncrementCents)) hi.GUID) =
          [lo, hi] := by
        have a1 : ¬ lo.BidStrategy.MaxBidCents ≤
            lo.InitialBid.AmountCents + hi.BidStrategy.BidIncrementCents := by omega
        have a2 : ¬ lo.BidStrategy.MaxBidCents <
            lo.BidStrategy.BidIncrementCents + lo.InitialBid.AmountCents := by omega
        have a3 : ¬ hi.BidStrategy.MaxBidCents ≤
            lo.InitialBid.AmountCents + hi.BidStrategy.BidIncrementCents := by omega
        have a4 : ¬ hi.BidStrategy.MaxBidCents < hi.BidStrategy.BidIncrementCents +
            (lo.InitialBid.AmountCents + hi.BidStrategy.BidIncrementCents) := by omega
        simp [deleteFunc, eliminated, bidOf, setKey, hguid, hw1, hw2, a1, a2, a3, a4]
      obtain ⟨fuel, st', hsim, hh, hamt⟩ := two_bidder_ladder auction lo hi
        lo.BidStrategy.BidIncrementCents hi.BidStrategy.BidIncrementCents hguid rfl rfl hdl hdh
        hloe hcap hr2 k
        (setKey (setKey (setKey emptyMap lo.GUID lo.InitialBid.AmountCents) hi.GUID
          hi.InitialBid.AmountCents) hi.GUID
          (lo.InitialBid.AmountCents + hi.BidStrategy.BidIncrementCents))
        (lo.InitialBid.AmountCents + hi.BidStrategy.BidIncrementCents) (by simp [setKey])
        (by omega) (by rw [hstep]; ring)
      refine ⟨fuel + 1, st', ?_, hh, hamt⟩
      rw [simulate_step auction fuel _ _ rfl (by simp) hpass]
      simp only [hkeep]; exact hsim
  · -- `hi` starts as the highest bidder
    have hstart : startState auction bidders =
        ⟨[lo, hi], setKey (setKey emptyMap lo.GUID lo.InitialBid.AmountCents) hi.GUID
          hi.InitialBid.AmountCents, hi.GUID, true⟩ := by
      by_cases h0 : 0 < lo.InitialBid.AmountCents
      · simp [startState, hpool, getInitialBids, isSortedByBidTime, getInitialBidsLoop, h0, hlt,
          compare_neg_iff, ht]
      · simp [startState, hpool, getInitialBids, isSortedByBidTime, getInitialBidsLoop, h0, hpos,
          compare_neg_iff, ht]
    rw [hstart]
    exact two_bidder_ladder auction lo hi lo.BidStrategy.BidIncrementCents
      hi.BidStrategy.BidIncrementCents hguid rfl rfl hdl hdh hloe hcap hr2 j _
      hi.InitialBid.AmountCents (by simp [setKey]) hpos hstep

/-- C4 (amended).  First part, any number of eligible bidders with distinct GUIDs:
let `hi` be an eligible bidder with positive increment and `m` the largest
`MaxBidCents` among the other eligible bidders (the runner-up's maximum), with
`m` plus the increment of `hi` not above the maximum of `hi`.  If the ladder of
bids lands on `m` before the turn of `hi` (in some pass, when the turn of `hi`
comes with at least two bidders in the pool, the highest bid is held by another
bidder and equals `m`), then `ResolveAuction` succeeds and `hi` wins at `m` plus
its increment.  Second part, exactly two eligible bidders `lo` and `hi` with
distinct GUIDs and positive increments, `lo` first in the pool: if the maximum of
`lo` lies on the ladder of the bids of `lo` and that maximum plus the increment of
`hi` is not above the maximum of `hi`, then `ResolveAuction` succeeds and `hi`
wins at the maximum of `lo` plus its increment. -/
theorem C4_runner_up_max_plus_winner_increment (auction : Auction) (bidders : List Bidder) :
    (∀ (hi : Bidder) (m : Int) (n i : Nat) (st₁ : SimState),
      (bidders.map (·.GUID)).Nodup →
      0 < hi.BidStrategy.BidIncrementCents →
      (∀ b ∈ bidders, Eligible auction b → b ≠ hi → b.BidStrategy.MaxBidCents ≤ m) →
      (∃ lo ∈ bidders, Eligible auction lo ∧ lo ≠ hi ∧ lo.BidStrategy.MaxBidCents = m) →
      m + hi.BidStrategy.BidIncrementCents ≤ hi.BidStrategy.MaxBidCents →
      InInt64 hi.BidStrategy.MaxBidCents → InInt64 auction.minPriceCents →
      stateAtTurn auction n i (startState auction bidders) = some st₁ →
      st₁.bidders[i]? = some hi → 2 ≤ st₁.bidders.length →
      st₁.bids st₁.highestBidder = some m → st₁.highestBidder ≠ hi.GUID →
      Returns auction bidders ⟨hi.GUID, m + hi.BidStrategy.BidIncrementCents, none⟩) ∧
    (∀ (lo hi : Bidder) (j : Nat),
      (bidders.filter (fun b => decide (Eligible auction b))).Perm [lo, hi] →
      (lo.InitialBid.CreatedAt < hi.InitialBid.CreatedAt ∨
        (lo.InitialBid.CreatedAt = hi.InitialBid.CreatedAt ∧
          bidders.filter (fun b => decide (Eligible auction b)) = [lo, hi])) →
      lo.GUID ≠ hi.GUID →
      0 < lo.BidStrategy.BidIncrementCents → 0 < hi.BidStrategy.BidIncrementCents →
      ((hi.InitialBid.AmountCents ≤ lo.InitialBid.AmountCents ∧ 0 < lo.InitialBid.AmountCents ∧
          lo.BidStrategy.MaxBidCents = lo.InitialBid.AmountCents +
            (j : Int) * (lo.BidStrategy.BidIncrementCents + hi.BidStrategy.BidIncrementCents)) ∨
        (lo.InitialBid.AmountCents < hi.InitialBid.AmountCents ∧ 0 < hi.InitialBid.AmountCents ∧
          lo.BidStrategy.MaxBidCents = hi.InitialBid.AmountCents +
            lo.BidStrategy.BidIncrementCents +
            (j : Int) * (lo.BidStrategy.BidIncrementCents + hi.BidStrategy.BidIncrementCents))) →
      lo.BidStrategy.MaxBidCents + hi.BidStrategy.BidIncrementCents ≤
        hi.BidStrategy.MaxBidCents →
      InInt64 hi.BidStrategy.MaxBidCents →
      Returns auction bidders
        ⟨hi.GUID, lo.BidStrategy.MaxBidCents + hi.BidStrategy.BidIncrementCents, none⟩) := by
  constructor
  · intro hi m n i st₁ hguid hinc hothers hrunner hcap hrange hminr hturn hhi hlen hbid hother
    exact top_bidder_answer_wins auction bidders hi m n i st₁ hguid hinc hothers hrunner hcap
      hrange hminr hturn hhi hlen hbid hother
  · intro lo hi j helig horder hguid hdl hdh halign hcap hrange
    exact two_eligible_on_ladder auction bidders lo hi j helig horder hguid hdl hdh halign hcap
      hrange

/-- C4 (amended) at two inputs.  Four bidders, three of them eligible: "Small"
stands at its maximum 1500, "Low" raises to its maximum 2000 and "High", whose turn
is next, wins at 2000 + 500.  The "happy path" test with increments 300 and 200
and an ineligible third bidder: "High" wins at 2000 + 200. -/
theorem C4_witness :
    Returns { id := "testAuction", minPriceCents := 100 }
      [{ GUID := "Small", BidStrategy := { MaxBidCents := 1500, BidIncrementCents := 100 },
         InitialBid := { CreatedAt := 0, AmountCents := 1500 } },
       { GUID := "Low", BidStrategy := { MaxBidCents := 2000, BidIncrementCents := 500 },
         InitialBid := { CreatedAt := 1, AmountCents := 1000 } },
       { GUID := "High", BidStrategy := { MaxBidCents := 30000, BidIncrementCents := 500 },
         InitialBid := { CreatedAt := 2, AmountCents := 500 } },
       { GUID := "Cheap", BidStrategy := { MaxBidCents := 50, BidIncrementCents := 10 },
         InitialBid := { CreatedAt := 3, AmountCents := 20 } }]
      ⟨"High", 2000 + 500, none⟩ ∧
    Returns { id := "testAuction", minPriceCents := 100 }
      [{ GUID := "Cheap", BidStrategy := { MaxBidCents := 50, BidIncrementCents := 10 },
         InitialBid := { CreatedAt := 0, AmountCents := 20 } },
       { GUID := "Low", BidStrategy := { MaxBidCents := 2000, BidIncrementCents := 300 },
         InitialBid := { CreatedAt := 1, AmountCents := 1000 } },
       { GUID := "High", BidStrategy := { MaxBidCents := 30000, BidIncrementCents := 200 },
         InitialBid := { CreatedAt := 2, AmountCents := 500 } }]
      ⟨"High", 2000 + 200, none⟩ :=
  ⟨(C4_runner_up_max_plus_winner_increment { id := "testAuction", minPriceCents := 100 } _).1
      { GUID := "High", BidStrategy := { MaxBidCents := 30000, BidIncrementCents := 500 },
        InitialBid := { CreatedAt := 2, AmountCents := 500 } } 2000 0 2 _
      (by decide) (by decide) (by decide)
      ⟨{ GUID := "Low", BidStrategy := { MaxBidCents := 2000, BidIncrementCents := 500 },
         InitialBid := { CreatedAt := 1, AmountCents := 1000 } },
        by decide, by decide, by decide, rfl⟩
      (by decide) (by decide) (by decide) rfl (by decide) (by decide) (by decide) (by decide),
   (C4_runner_up_max_plus_winner_increment { id := "testAuction", minPriceCents := 100 } _).2
      { GUID := "Low", BidStrategy := { MaxBidCents := 2000, BidIncrementCents := 300 },
        InitialBid := { CreatedAt := 1, AmountCents := 1000 } }
      { GUID := "High", BidStrategy := { MaxBidCents := 30000, BidIncrementCents := 200 },
        InitialBid := { CreatedAt := 2, AmountCents := 500 } } 2
      (by decide) (by decide) (by decide) (by decide) (by decide) (by decide) (by decide)
      (by decide)⟩

end Auctioneer
